import Mathlib

/-
  Verification development for the agentify workflow engine.

  The embedding models two components:
  * the step-graph interpreter and fluent workflow builder
    (source: the workflow system module, `buildWorkflowSystem`);
  * the orchestrator's decompose/dispatch/evaluate loop
    (source: `OrchestratorCore`).

  JavaScript runtime values are modelled by `JsValue`; `undefined` is
  collapsed into `null` (lookups of absent keys produce `null`).
  Asynchronous concurrency (Promise.all / Promise.race / Map batches) is
  sequentialised left-to-right; none of the verified properties depend on
  interleaving.  Recursion through the step graph is bounded by explicit
  fuel; the `fuelOut` outcome is a model artifact that never arises in the
  concrete runs proved below.
-/

set_option maxHeartbeats 1000000

namespace Agentify

/-- Result of `evaluateResult` (Orchestrator): pass flag, average score and
per-criterion scores.  Scores are rationals standing in for JS numbers. -/
structure EvalResult where
  passed : Bool
  score : ℚ
  criteria : Option (List (String × ℚ)) := none
deriving DecidableEq

/-- JavaScript runtime values threaded through the engine.  Objects are
insertion-ordered association lists, as JS object keys are.  `evalRes`
embeds an evaluation object (the orchestrator stores those inside result
objects under `_evaluation` / `_previousAttempt`). -/
inductive JsValue where
  | null
  | bool (b : Bool)
  | num (n : Int)
  | str (s : String)
  | arr (elems : List JsValue)
  | obj (fields : List (String × JsValue))
  | evalRes (e : EvalResult)

/-- Association-list lookup, first binding wins (JS object keys are unique
by construction of `setField`). -/
def lookupField {α : Type} (fields : List (String × α)) (k : String) : Option α :=
  match fields with
  | [] => none
  | (k', v) :: rest => if k' = k then some v else lookupField rest k

/-- Association-list update: an existing key keeps its position (as in JS
object assignment), a new key is appended. -/
def setField {α : Type} (fields : List (String × α)) (k : String) (v : α) :
    List (String × α) :=
  match fields with
  | [] => [(k, v)]
  | (k', v') :: rest => if k' = k then (k', v) :: rest else (k', v') :: setField rest k v

theorem lookupField_setField_self {α : Type} (l : List (String × α)) (k : String) (v : α) :
    lookupField (setField l k v) k = some v := by
  induction l with
  | nil => simp [setField, lookupField]
  | cons hd tl ih =>
    obtain ⟨k0, v0⟩ := hd
    by_cases h : k0 = k
    · simp [setField, lookupField, h]
    · simp [setField, lookupField, h, ih]

theorem lookupField_setField_ne {α : Type} (l : List (String × α)) (k k' : String) (v : α)
    (h : k' ≠ k) : lookupField (setField l k v) k' = lookupField l k' := by
  induction l with
  | nil =>
    simp [setField, lookupField, Ne.symm h]
  | cons hd tl ih =>
    obtain ⟨k0, v0⟩ := hd
    by_cases hh : k0 = k
    · subst hh
      have hk : ¬ k0 = k' := fun hc => h hc.symm
      simp [setField, lookupField, hk]
    · by_cases hk' : k0 = k'
      · simp [setField, lookupField, hh, hk', h]
      · simp [setField, lookupField, hh, hk', ih]

/-- JS property read: only objects expose named properties in this model. -/
def getKey (v : JsValue) (k : String) : Option JsValue :=
  match v with
  | .obj fields => lookupField fields k
  | _ => none

/-- JS property write.  Writing a property on a non-object is lost (strict
mode would raise a `TypeError`; either way the value is unchanged). -/
def setKey (v : JsValue) (k : String) (x : JsValue) : JsValue :=
  match v with
  | .obj fields => .obj (setField fields k x)
  | _ => v

/-- JS truthiness.  `NaN` is not modelled; objects, arrays and evaluation
objects are always truthy. -/
def truthy (v : JsValue) : Bool :=
  match v with
  | .null => false
  | .bool b => b
  | .num n => n != 0
  | .str s => s != ""
  | .arr _ => true
  | .obj _ => true
  | .evalRes _ => true

/-- `Object.assign(target, src)`: shallow-merge the source's own fields into
the target, in key order.  A primitive source contributes nothing (string
index properties are not modelled; no call site merges a string). -/
def objectAssign (target : JsValue) (src : JsValue) : JsValue :=
  match src with
  | .obj fields => fields.foldl (fun t kv => setKey t kv.1 kv.2) target
  | _ => target

/-- Optional-chaining path walk `value?.[k1]?.[k2]...` starting from an
optional value; absent keys and non-objects give `none` (JS `undefined`). -/
def jsGetPath (v : Option JsValue) (path : List String) : Option JsValue :=
  match path with
  | [] => v
  | k :: rest =>
    match v with
    | some w => jsGetPath (getKey w k) rest
    | none => none

/-- JS `String.prototype.startsWith`. -/
def jsStartsWith (s pre : String) : Bool :=
  pre.data.isPrefixOf s.data

/-- Split a character list at a separator character, accumulating the
current segment in reverse. -/
def splitCharAux (sep : Char) : List Char → List Char → List String
  | [], acc => [⟨acc.reverse⟩]
  | c :: cs, acc =>
    if c = sep then ⟨acc.reverse⟩ :: splitCharAux sep cs []
    else splitCharAux sep cs (c :: acc)

/-- JS `String.prototype.split` with a one-character separator (the source
only ever splits on a dot). -/
def jsSplit (s : String) (sep : Char) : List String :=
  splitCharAux sep s.data []

/-- JS `String.prototype.includes` with a one-character needle (the source
tests `targetKey.includes(".")`). -/
def jsIncludesChar (s : String) (c : Char) : Bool :=
  s.data.contains c

/-- Sublist (contiguous) test on character lists. -/
def isSublist (needle : List Char) : List Char → Bool
  | [] => needle.isEmpty
  | h :: t => needle.isPrefixOf (h :: t) || isSublist needle t

/-- JS `String.prototype.includes` with a string needle (the orchestrator
scans log messages with it). -/
def jsIncludes (s pat : String) : Bool :=
  isSublist pat.data s.data

/-- Errors raised by the workflow engine.  `taskThrew` wraps a value thrown
by a registered unit of work. -/
inductive WfError where
  | stepNotFound (stepId : String) (workflowId : String)
  | taskNotFound (taskName : String)
  | mapItemsNotArray (source : String)
  | taskThrew (e : JsValue)

/-- Workflow execution context (`WorkflowContext` in the source).  The
`startTime`/`endTime` timestamps are not modelled. -/
structure WorkflowContext where
  input : JsValue
  steps : List (String × JsValue)
  output : JsValue
  currentStep : Option String
  errors : List (String × WfError)
  metadata : List (String × JsValue)

/-- A source of one input-map entry: a literal key string or a function of
the context (`inputMap` values in a Task step's config). -/
inductive InputSource where
  | key (s : String)
  | fn (f : WorkflowContext → JsValue)

/-- Config of a Task step (`TaskStep["config"]`). -/
structure TaskStepConfig where
  taskName : String
  inputMap : Option (List (String × InputSource)) := none
  outputMap : Option (List (String × String)) := none
  condition : Option (WorkflowContext → Bool) := none
  retries : Option Nat := none
  retryDelay : Option Nat := none

/-- Config of a Retry step (`RetryStep["config"]`).  The error/attempts
predicate is modelled as a total boolean function. -/
structure RetryStepConfig where
  stepId : String
  maxRetries : Nat
  delay : Option Nat := none
  backoffFactor : Option Nat := none
  condition : Option (WfError → Nat → Bool) := none

/-- Config of a Map step (`MapStep["config"]`): items are either a dotted
context path / input key, or a literal array. -/
structure MapStepConfig where
  items : String ⊕ List JsValue
  iteratorTask : String
  concurrency : Option Nat := none

/-- Tagged union of step configs, keyed by the source's `type` tag. -/
inductive StepConfig where
  | task (c : TaskStepConfig)
  | parallel (branches : List String) (waitForAll : Bool)
  | condition (cond : WorkflowContext → Bool) (trueNext falseNext : String)
  | map (c : MapStepConfig)
  | retry (c : RetryStepConfig)

/-- One node of the step graph (`WorkflowStep`): its id, optional successor
(single id or fan-out list) and typed config. -/
structure WorkflowStep where
  id : String
  next : Option (String ⊕ List String) := none
  config : StepConfig

/-- A workflow definition: id/name, step mapping and entry point.  Schema
references and tags carry no behaviour and are omitted. -/
structure WorkflowDefinition where
  id : String
  name : String
  steps : List (String × WorkflowStep)
  entrypoint : String

/-- A registered unit of work (`instance.tasks[name]`).  The second
argument is the 0-based count of earlier invocations of this task in the
run, letting one oracle model a stateful JS task; the result is either a
returned value or a thrown value. -/
structure RegisteredTask where
  exec : JsValue → Nat → Except JsValue JsValue

/-- Observable world effects of a run: per-task invocation counts and the
sequence of `setTimeout` delays awaited, in order. -/
structure World where
  invocations : List (String × Nat)
  waits : List Nat

/-- Invocations so far of the named task. -/
def countOf (w : World) (name : String) : Nat :=
  (lookupField w.invocations name).getD 0

/-- Record one more invocation of the named task. -/
def recordInvocation (w : World) (name : String) : World :=
  { w with invocations := setField w.invocations name (countOf w name + 1) }

/-- Outcome of a step or workflow: resolved value, raised error, or fuel
exhaustion (model artifact for unbounded recursion). -/
inductive Outcome where
  | ok (v : JsValue)
  | err (e : WfError)
  | fuelOut

/-- Dotted lookup into the context for a `steps.`-prefixed source string
(the interpreter's `let value = context; for (key of path) value =
value?.[key]` walk).  Call sites guard on the `steps.` prefix, so only the
`steps` head is modelled; a missing path yields `null` (JS `undefined`). -/
def lookupContextPath (ctx : WorkflowContext) (parts : List String) : JsValue :=
  match parts with
  | "steps" :: rest => (jsGetPath (some (.obj ctx.steps)) rest).getD .null
  | _ => .null

/-- Input resolution for a Task step.  No input-map: the task receives the
whole workflow input.  Otherwise each entry is resolved: a function source
is applied to the context; a `steps.`-prefixed string is a dotted context
lookup; any other string is a key of the workflow's original input. -/
def resolveTaskInput (inputMap : Option (List (String × InputSource)))
    (ctx : WorkflowContext) : JsValue :=
  match inputMap with
  | none => ctx.input
  | some m =>
    m.foldl (fun acc kv =>
      match kv.2 with
      | .fn f => setKey acc kv.1 (f ctx)
      | .key s =>
        if jsStartsWith s "steps." then
          setKey acc kv.1 (lookupContextPath ctx (jsSplit s '.'))
        else
          setKey acc kv.1 ((getKey ctx.input s).getD .null)) (.obj [])

/-- Dotted write into `context.output` (the output-map's `targetKey` with
dots).  A falsy or absent intermediate is replaced by a fresh object; a
truthy non-object intermediate leaves the value unchanged (in JS the final
write is lost on a primitive — strict mode raises a `TypeError`). -/
def setPath (target : JsValue) (path : List String) (v : JsValue) : JsValue :=
  match path with
  | [] => target
  | [leaf] => setKey target leaf v
  | k :: rest =>
    match target with
    | .obj fields =>
      let child :=
        match lookupField fields k with
        | some c => if truthy c then c else .obj []
        | none => .obj []
      .obj (setField fields k (setPath child rest v))
    | _ => target

/-- Apply a Task step's output-map: each `resultKey → targetKey` entry
copies `result[resultKey]` into `context.output`, at a dotted path when the
target contains a dot, else as a direct key. -/
def applyOutputMap (outputMap : List (String × String)) (result : JsValue)
    (output : JsValue) : JsValue :=
  outputMap.foldl (fun out kv =>
    let value := (getKey result kv.1).getD .null
    if jsIncludesChar kv.2 '.' then setPath out (jsSplit kv.2 '.') value
    else setKey out kv.2 value) output

/-- Type of the one-step executor threaded into the per-type step
executors: it runs a step id against a context and world.  In the source
the helpers call `executeStep` directly; here the recursive knot is tied in
`executeStep` itself via this parameter. -/
def Exec1 : Type :=
  String → WorkflowContext → World → WorkflowContext × World × Outcome

/-- Execute a Task step (`executeTaskStep`): look up the task, check the
gating predicate (false skips the task with a `null` result), resolve the
input, invoke the unit of work, then apply the output-map (or shallow-merge
the whole result into `context.output`). -/
def executeTaskStep (tasks : List (String × RegisteredTask))
    (c : TaskStepConfig) (ctx : WorkflowContext) (w : World) :
    WorkflowContext × World × Outcome :=
  match lookupField tasks c.taskName with
  | none => (ctx, w, .err (.taskNotFound c.taskName))
  | some t =>
    let run : WorkflowContext × World × Outcome :=
      let taskInput := resolveTaskInput c.inputMap ctx
      let n := countOf w c.taskName
      let w1 := recordInvocation w c.taskName
      match t.exec taskInput n with
      | .error e => (ctx, w1, .err (.taskThrew e))
      | .ok result =>
        let ctx1 :=
          match c.outputMap with
          | some m => { ctx with output := applyOutputMap m result ctx.output }
          | none => { ctx with output := objectAssign ctx.output result }
        (ctx1, w1, .ok result)
    match c.condition with
    | some p => if p ctx then run else (ctx, w, .ok .null)
    | none => run

/-- Intermediate outcome of running a list of branch step ids. -/
inductive BranchesOut where
  | ok (vs : List JsValue)
  | err (e : WfError)
  | fuelOut

/-- Run a list of step ids against the shared context, collecting results
in order (the `Promise.all` fan-out, sequentialised left-to-right; the
first rejection wins and later branches are not modelled further). -/
def runBranches (exec1 : Exec1) (ids : List String)
    (ctx : WorkflowContext) (w : World) :
    WorkflowContext × World × BranchesOut :=
  match ids with
  | [] => (ctx, w, .ok [])
  | id :: rest =>
    match exec1 id ctx w with
    | (ctx1, w1, .ok v) =>
      match runBranches exec1 rest ctx1 w1 with
      | (ctx2, w2, .ok vs) => (ctx2, w2, .ok (v :: vs))
      | other => other
    | (ctx1, w1, .err e) => (ctx1, w1, .err e)
    | (ctx1, w1, .fuelOut) => (ctx1, w1, .fuelOut)

/-- Follow a step's `next` field after a successful result: none (or the
falsy empty string) returns the step's own result; a single id recurses; a
list fans out and returns the array of branch results. -/
def followNext (exec1 : Exec1) (next : Option (String ⊕ List String))
    (result : JsValue) (ctx : WorkflowContext) (w : World) :
    WorkflowContext × World × Outcome :=
  match next with
  | none => (ctx, w, .ok result)
  | some (.inl nextId) =>
    if nextId = "" then (ctx, w, .ok result) else exec1 nextId ctx w
  | some (.inr nextIds) =>
    match runBranches exec1 nextIds ctx w with
    | (ctx2, w2, .ok vs) => (ctx2, w2, .ok (.arr vs))
    | (ctx2, w2, .err e) => (ctx2, w2, .err e)
    | (ctx2, w2, .fuelOut) => (ctx2, w2, .fuelOut)

/-- Execute a Parallel step (`executeParallelStep`): with `waitForAll` all
branches run and the ordered result array is produced; otherwise
(`Promise.race`) the first branch to settle wins — sequentialised, that is
the first branch, and losing branches' continued execution is not
modelled.  Racing an empty branch list never settles (`fuelOut`). -/
def executeParallelStep (exec1 : Exec1) (branches : List String)
    (waitForAll : Bool) (ctx : WorkflowContext) (w : World) :
    WorkflowContext × World × Outcome :=
  if waitForAll then
    match runBranches exec1 branches ctx w with
    | (ctx2, w2, .ok vs) => (ctx2, w2, .ok (.arr vs))
    | (ctx2, w2, .err e) => (ctx2, w2, .err e)
    | (ctx2, w2, .fuelOut) => (ctx2, w2, .fuelOut)
  else
    match branches with
    | [] => (ctx, w, .fuelOut)
    | b :: _ => exec1 b ctx w

/-- Execute a Condition step (`executeConditionStep`): evaluate the
predicate and run the true/false successor. -/
def executeConditionStep (exec1 : Exec1) (cond : WorkflowContext → Bool)
    (trueNext falseNext : String) (ctx : WorkflowContext) (w : World) :
    WorkflowContext × World × Outcome :=
  exec1 (if cond ctx then trueNext else falseNext) ctx w

/-- Run the Map step's iterator once per item.  Each item gets a sub-context
that spreads the parent and shallow-copies `steps` and `errors` (value
copies here), replaces `input` by the item, resets `output`, and extends
`metadata` with a `parentContext` entry (a reference to the parent context
in JS, never read by the interpreter — modelled as `null`).  The parent
context is not touched; only the world and the per-item outcomes flow back.
Batching by `concurrency` only schedules JS promises and keeps results in
item order, so items are processed in order. -/
def runItems (exec1 : Exec1) (iteratorTask : String) (items : List JsValue)
    (parent : WorkflowContext) (w : World) : World × BranchesOut :=
  match items with
  | [] => (w, .ok [])
  | item :: rest =>
    let itemContext : WorkflowContext :=
      { parent with
        input := item
        steps := parent.steps
        output := .obj []
        errors := parent.errors
        metadata := setField parent.metadata "parentContext" .null }
    match exec1 iteratorTask itemContext w with
    | (_, w1, .ok v) =>
      match runItems exec1 iteratorTask rest parent w1 with
      | (w2, .ok vs) => (w2, .ok (v :: vs))
      | other => other
    | (_, w1, .err e) => (w1, .err e)
    | (_, w1, .fuelOut) => (w1, .fuelOut)

/-- Resolve a Map step's item list: a `steps.` dotted context path, an
input key, or a literal array; a non-array resolution is a type error. -/
def resolveMapItems (items : String ⊕ List JsValue) (ctx : WorkflowContext) :
    Except WfError (List JsValue) :=
  match items with
  | .inl s =>
    if jsStartsWith s "steps." then
      match lookupContextPath ctx (jsSplit s '.') with
      | .arr l => .ok l
      | _ => .error (.mapItemsNotArray s)
    else
      match (getKey ctx.input s).getD .null with
      | .arr l => .ok l
      | _ => .error (.mapItemsNotArray s)
  | .inr l => .ok l

/-- Execute a Map step (`executeMapStep`): resolve the item list, then run
the iterator per item and return the concatenated results in item order. -/
def executeMapStep (exec1 : Exec1) (c : MapStepConfig)
    (ctx : WorkflowContext) (w : World) :
    WorkflowContext × World × Outcome :=
  match resolveMapItems c.items ctx with
  | .error e => (ctx, w, .err e)
  | .ok items =>
    match runItems exec1 c.iteratorTask items ctx w with
    | (w1, .ok vs) => (ctx, w1, .ok (.arr vs))
    | (w1, .err e) => (ctx, w1, .err e)
    | (w1, .fuelOut) => (ctx, w1, .fuelOut)

/-- One attempt of a Retry step's inner `retry(attempts)` closure: run the
target; on error record it under `{stepId}_attempt_{n}`, and if attempts
remain and the optional predicate does not veto, wait
`delay * backoffFactor ^ attempts` and try again; otherwise re-raise. -/
def retryAttempt (exec1 : Exec1) (c : RetryStepConfig) (attempts : Nat)
    (ctx : WorkflowContext) (w : World) :
    WorkflowContext × World × Outcome :=
  match exec1 c.stepId ctx w with
  | (ctx1, w1, .ok v) => (ctx1, w1, .ok v)
  | (ctx1, w1, .fuelOut) => (ctx1, w1, .fuelOut)
  | (ctx1, w1, .err e) =>
    let ctx2 := { ctx1 with
      errors := setField ctx1.errors (c.stepId ++ "_attempt_" ++ toString attempts) e }
    if _h : attempts < c.maxRetries then
      let veto :=
        match c.condition with
        | some p => !(p e attempts)
        | none => false
      if veto then (ctx2, w1, .err e)
      else
        let waitTime := (c.delay.getD 1000) * (c.backoffFactor.getD 1) ^ attempts
        let w2 := { w1 with waits := w1.waits ++ [waitTime] }
        retryAttempt exec1 c (attempts + 1) ctx2 w2
    else (ctx2, w1, .err e)
termination_by c.maxRetries - attempts
decreasing_by omega

/-- Execute a Retry step (`executeRetryStep`): start the retry loop at
attempt 0. -/
def executeRetryStep (exec1 : Exec1) (c : RetryStepConfig)
    (ctx : WorkflowContext) (w : World) :
    WorkflowContext × World × Outcome :=
  retryAttempt exec1 c 0 ctx w

/-- Execute a single step (`executeStep`): look the step up (a missing id
raises `Step {id} not found in workflow {wfId}`), set `currentStep`,
dispatch by type, store the result under the step id and follow `next`; on
any error from the dispatch or the successors, record it under the step id
and, for a Task step with remaining retry budget, wait the fixed delay and
re-execute the same step id against a transient copy of the definition with
the budget decremented — the stored definition is never mutated.  Lifecycle
hooks are side-effect-only and not modelled. -/
def executeStepF (tasks : List (String × RegisteredTask))
    (recur : String → WorkflowDefinition → WorkflowContext → World →
      WorkflowContext × World × Outcome)
    (stepId : String) (wf : WorkflowDefinition)
    (ctx : WorkflowContext) (w : World) :
    WorkflowContext × World × Outcome :=
    match lookupField wf.steps stepId with
    | none => (ctx, w, .err (.stepNotFound stepId wf.id))
    | some step =>
      let ctx0 := { ctx with currentStep := some stepId }
      let exec1 : Exec1 := fun sid c ww => recur sid wf c ww
      let dispatched :=
        match step.config with
        | .task c => executeTaskStep tasks c ctx0 w
        | .parallel branches waitForAll =>
          executeParallelStep exec1 branches waitForAll ctx0 w
        | .condition cond tN fN => executeConditionStep exec1 cond tN fN ctx0 w
        | .map c => executeMapStep exec1 c ctx0 w
        | .retry c => executeRetryStep exec1 c ctx0 w
      let tryRes :=
        match dispatched with
        | (ctx1, w1, .ok result) =>
          let ctx2 := { ctx1 with steps := setField ctx1.steps stepId result }
          followNext exec1 step.next result ctx2 w1
        | other => other
      match tryRes with
      | (ctxE, wE, .err e) =>
        let ctxE2 := { ctxE with errors := setField ctxE.errors stepId e }
        match step.config with
        | .task c =>
          match c.retries with
          | some r =>
            if r > 0 then
              let wE2 :=
                match c.retryDelay with
                | some d => if d ≠ 0 then { wE with waits := wE.waits ++ [d] } else wE
                | none => wE
              let step2 := { step with config := .task { c with retries := some (r - 1) } }
              let wf2 := { wf with steps := setField wf.steps stepId step2 }
              recur stepId wf2 ctxE2 wE2
            else (ctxE2, wE, .err e)
          | none => (ctxE2, wE, .err e)
        | _ => (ctxE2, wE, .err e)
      | okRes => okRes

/-- Fuel-indexed step execution: one layer of `executeStepF` per unit of
fuel; each recursive entry into `executeStep` (successors, branches, map
items, retry re-execution) consumes one unit. -/
def executeStep (tasks : List (String × RegisteredTask)) :
    Nat → String → WorkflowDefinition → WorkflowContext → World →
    WorkflowContext × World × Outcome
  | 0 => fun _ _ ctx w => (ctx, w, .fuelOut)
  | fuel + 1 => executeStepF tasks (executeStep tasks fuel)

/-- Execute a workflow from its entry point (`executeWorkflow`). -/
def executeWorkflow (tasks : List (String × RegisteredTask)) (fuel : Nat)
    (wf : WorkflowDefinition) (ctx : WorkflowContext) (w : World) :
    WorkflowContext × World × Outcome :=
  executeStep tasks fuel wf.entrypoint wf ctx w

/-- The workflow instance's `execute`: build a fresh context, run the
interpreter, then assign the interpreter's return value to
`context.output` (overwriting the mapping accumulator) and return it; on
error, record the error under the `workflow` key and re-raise. -/
def executeRun (tasks : List (String × RegisteredTask)) (fuel : Nat)
    (wf : WorkflowDefinition) (input : JsValue)
    (metadata : List (String × JsValue)) :
    WorkflowContext × World × Outcome :=
  let ctx : WorkflowContext :=
    { input := input, steps := [], output := .obj [], currentStep := none,
      errors := [], metadata := metadata }
  match executeWorkflow tasks fuel wf ctx ⟨[], []⟩ with
  | (ctx1, w1, .ok v) => ({ ctx1 with output := v }, w1, .ok v)
  | (ctx1, w1, .err e) =>
    ({ ctx1 with errors := setField ctx1.errors "workflow" e }, w1, .err e)
  | (ctx1, w1, .fuelOut) => (ctx1, w1, .fuelOut)

/-- State of the fluent builder: the definition under construction (its id,
step mapping and entry point; `name` mirrors the id). -/
structure BuilderState where
  wfId : String
  steps : List (String × WorkflowStep)
  entrypoint : String

/-- Package the builder state as the built definition
(`getDefinition`). -/
def toDefinition (b : BuilderState) : WorkflowDefinition :=
  { id := b.wfId, name := b.wfId, steps := b.steps, entrypoint := b.entrypoint }

/-- The builder's `task(id, options)`: requires the referenced task name to
be registered (else `Task {name} not found`), stores the step, and sets the
entry point to this step if none is set yet. -/
def builderTask (knownTasks : List String) (b : BuilderState)
    (id : String) (c : TaskStepConfig) : Except String BuilderState :=
  if knownTasks.contains c.taskName then
    .ok { b with
      steps := setField b.steps id { id := id, next := none, config := .task c },
      entrypoint := if b.entrypoint = "" then id else b.entrypoint }
  else .error ("Task " ++ c.taskName ++ " not found")

/-- The builder's `parallel(id, options)`: stores the step with
`waitForAll` defaulting to true; the branch ids are not checked for
existence and the entry point is left untouched. -/
def builderParallel (b : BuilderState) (id : String)
    (branches : List String) (waitForAll : Option Bool) : BuilderState :=
  let step : WorkflowStep :=
    { id := id, next := none,
      config := .parallel branches (decide (waitForAll ≠ some false)) }
  { b with steps := setField b.steps id step }

/-- The builder's `condition(id, options)`: stores the step; the true/false
successor ids are not checked for existence and the entry point is left
untouched. -/
def builderCondition (b : BuilderState) (id : String)
    (cond : WorkflowContext → Bool) (trueNext falseNext : String) : BuilderState :=
  let step : WorkflowStep :=
    { id := id, next := none, config := .condition cond trueNext falseNext }
  { b with steps := setField b.steps id step }

/-- The `sequence` loop body: link each consecutive pair, rejecting at
build time any id absent from the current step mapping. -/
def linkSteps (b : BuilderState) : List String → Except String BuilderState
  | [] => .ok b
  | [_] => .ok b
  | cur :: nxt :: rest =>
    match lookupField b.steps cur with
    | none => .error ("Step " ++ cur ++ " not found in workflow " ++ b.wfId)
    | some st =>
      if (lookupField b.steps nxt).isNone then
        .error ("Step " ++ nxt ++ " not found in workflow " ++ b.wfId)
      else
        linkSteps
          { b with steps := setField b.steps cur { st with next := some (.inl nxt) } }
          (nxt :: rest)

/-- The builder's `sequence(ids)`: no-op on an empty list; otherwise link
consecutive steps (validating both ends of each link) and set the entry
point to the first id if none is set yet. -/
def builderSequence (b : BuilderState) (ids : List String) :
    Except String BuilderState :=
  if ids = [] then .ok b
  else
    match linkSteps b ids with
    | .error e => .error e
    | .ok b1 =>
      .ok { b1 with
        entrypoint := if b1.entrypoint = "" then ids.headD "" else b1.entrypoint }

end Agentify

namespace Agentify

/-- The `fetch` unit of work of the end-to-end scenario: returns
`{value: 7}` regardless of input. -/
def fetchTask : RegisteredTask := ⟨fun _ _ => .ok (.obj [("value", .num 7)])⟩

/-- The `format` unit of work of the end-to-end scenario: echoes its
(mapped) input. -/
def formatTask : RegisteredTask := ⟨fun input _ => .ok input⟩

/-- Task registry of the end-to-end scenario. -/
def tasksC1 : List (String × RegisteredTask) :=
  [("fetchT", fetchTask), ("formatT", formatTask)]

/-- The two-step sequential workflow `fetch → format`: `fetch` returns
`{value: 7}` (with an empty output-map, so nothing is merged into the
accumulator); `format` pulls `steps.fetch.value` through its input-map,
echoes it, and its output-map copies the `value` result key to the
`total` output key — together copying `steps.fetch.value` into
`output.total`. -/
def fetchStep : WorkflowStep :=
  { id := "fetch", next := some (.inl "format"),
    config := .task { taskName := "fetchT", outputMap := some [] } }

/-- The `format` step of the end-to-end scenario. -/
def formatStep : WorkflowStep :=
  { id := "format", next := none,
    config := .task { taskName := "formatT",
                      inputMap := some [("value", .key "steps.fetch.value")],
                      outputMap := some [("value", "total")] } }

/-- Definition of the two-step workflow. -/
def wfC1 : WorkflowDefinition :=
  { id := "wf1", name := "wf1",
    steps := [("fetch", fetchStep), ("format", formatStep)],
    entrypoint := "fetch" }

/-- Empty starting context for concrete runs. -/
def freshContext : WorkflowContext :=
  { input := .obj [], steps := [], output := .obj [], currentStep := none,
    errors := [], metadata := [] }

/-- Empty starting world for concrete runs. -/
def freshWorld : World := ⟨[], []⟩

end Agentify

namespace Agentify

/-- One evaluation criterion of a `TaskDefinition`. -/
structure Criterion where
  description : String
  threshold : Option ℚ := none

/-- Orchestrator-level task description (`TaskDefinition`). -/
structure TaskDefinition where
  name : String
  description : String := ""
  goal : String
  input : JsValue := .obj []
  expectedOutput : Option JsValue := none
  requiredCapabilities : Option (List String) := none
  evaluationCriteria : Option (List (String × Criterion)) := none
  maxAttempts : Option Nat := none

/-- Task decomposition strategies (`DecompositionStrategy`). -/
inductive DecompositionStrategy where
  | sequentialStrategy
  | parallelStrategy
  | recursiveStrategy
  | auto
deriving DecidableEq

/-- Orchestrator options with the constructor defaults
(`OrchestratorOptions`; `verbose` only toggles console logging and is
omitted). -/
structure OrchestratorOptions where
  defaultDecompositionStrategy : DecompositionStrategy := .auto
  enableAutoEvaluation : Bool := true
  evaluationThreshold : ℚ := 7/10
  maxRetries : Nat := 2

/-- One log entry of an `ExecutionContext` (timestamps and the optional
data payload are not modelled). -/
structure OrchLogEntry where
  level : String
  message : String

/-- Orchestrator execution context (`ExecutionContext`). -/
structure ExecutionContext where
  taskId : String
  parentTaskId : Option String
  input : JsValue
  intermediateResults : List (String × JsValue)
  logs : List OrchLogEntry
  subtasks : List String
  agents : List (String × String)
  status : String

/-- Observation of one max-attempts check inside `handleEvaluation`: the
`attempts` value scanned from the logs, the effective maximum it was
compared against, and whether the exhausted-attempts branch was taken.
This trace field is instrumentation only — it records, without affecting
control flow, what the source's check computes. -/
structure EvalCheck where
  attempts : Nat
  maxAllowed : Nat
  exhausted : Bool
deriving DecidableEq

/-- Orchestrator state: the `contexts` map, a monotone counter modelling
`Date.now()` (used only to mint task ids), and the `EvalCheck`
instrumentation trace. -/
structure OrchState where
  contexts : List (String × ExecutionContext)
  now : Nat
  evalChecks : List EvalCheck

/-- `createContext`: install a fresh pending context under the task id. -/
def createContext (st : OrchState) (taskId : String) (parent : Option String)
    (input : JsValue) : OrchState :=
  let ctx : ExecutionContext :=
    { taskId := taskId, parentTaskId := parent, input := input,
      intermediateResults := [], logs := [], subtasks := [], agents := [],
      status := "pending" }
  { st with contexts := setField st.contexts taskId ctx }

/-- `logToContext`: append a log entry to the named context, if present. -/
def logToContext (st : OrchState) (taskId level message : String) : OrchState :=
  match lookupField st.contexts taskId with
  | some c =>
    let c2 := { c with logs := c.logs ++ [{ level := level, message := message }] }
    { st with contexts := setField st.contexts taskId c2 }
  | none => st

/-- `updateContext` with a `subtasks` payload. -/
def setSubtasks (st : OrchState) (taskId : String) (names : List String) : OrchState :=
  match lookupField st.contexts taskId with
  | some c =>
    let c2 := { c with subtasks := names }
    { st with contexts := setField st.contexts taskId c2 }
  | none => st

/-- `updateContextProperty` on the `agents` map. -/
def addAgent (st : OrchState) (taskId subtaskName agentName : String) : OrchState :=
  match lookupField st.contexts taskId with
  | some c =>
    let c2 := { c with agents := setField c.agents subtaskName agentName }
    { st with contexts := setField st.contexts taskId c2 }
  | none => st

/-- `updateContextProperty` on the `intermediateResults` map. -/
def addIntermediate (st : OrchState) (taskId subtaskName : String)
    (v : JsValue) : OrchState :=
  match lookupField st.contexts taskId with
  | some c =>
    let c2 := { c with intermediateResults := setField c.intermediateResults subtaskName v }
    { st with contexts := setField st.contexts taskId c2 }
  | none => st

/-- `updateContext` with a `status` payload. -/
def setStatus (st : OrchState) (taskId status : String) : OrchState :=
  match lookupField st.contexts taskId with
  | some c =>
    let c2 := { c with status := status }
    { st with contexts := setField st.contexts taskId c2 }
  | none => st

/-- The log scan of `handleEvaluation`: how many entries of the named
context's log include the text `Starting task`.  A missing context counts
as zero (the source's optional chaining). -/
def attemptsScan (st : OrchState) (taskId : String) : Nat :=
  match lookupField st.contexts taskId with
  | some c => (c.logs.filter (fun l => jsIncludes l.message "Starting task")).length
  | none => 0

/-- A registered executor (`instance.agents[...]`): name, capability tags
and an execute callable receiving the (sub)task definition and the
normalized input. -/
structure Agent where
  name : String
  capabilities : Option (List String)
  exec : TaskDefinition → JsValue → Except String JsValue

/-- `selectAgent`: the first registered agent whose capability set
contains every required capability; no match is a fatal error.  Absent
capability lists default to `["general"]` on both sides. -/
def selectAgent (agents : List Agent) (td : TaskDefinition) : Except String Agent :=
  let requiredCapabilities := td.requiredCapabilities.getD ["general"]
  let matching := agents.filter (fun a =>
    requiredCapabilities.all (fun cap => (a.capabilities.getD ["general"]).contains cap))
  match matching with
  | [] => .error ("No agent found with required capabilities: "
      ++ String.intercalate ", " requiredCapabilities)
  | a :: _ => .ok a

/-- `normalizeInputForCapabilities`: capability-driven aliasing of input
fields (research: `query` from `topic`; visualize: `concept` from `topic`;
summarize: `text` from `content`), each applied only when the target is
absent/falsy and the source truthy. -/
def normalizeInputForCapabilities (input : JsValue) (capabilities : List String) : JsValue :=
  let fieldOf := fun (v : JsValue) (k : String) => (getKey v k).getD .null
  let n0 := objectAssign (.obj []) input
  let n1 :=
    if capabilities.contains "research" && !(truthy (fieldOf n0 "query"))
        && truthy (fieldOf n0 "topic") then
      setKey n0 "query" (fieldOf n0 "topic")
    else n0
  let n2 :=
    if capabilities.contains "visualize" && !(truthy (fieldOf n1 "concept"))
        && truthy (fieldOf n1 "topic") then
      setKey n1 "concept" (fieldOf n1 "topic")
    else n1
  if capabilities.contains "summarize" && !(truthy (fieldOf n2 "text"))
      && truthy (fieldOf n2 "content") then
    setKey n2 "text" (fieldOf n2 "content")
  else n2

/-- `executeWithAgent`: normalize the input for the agent's capabilities
and invoke it (the `taskInfo` spread only adds an `id` alias of the task
name and is not modelled separately). -/
def executeWithAgent (agent : Agent) (td : TaskDefinition) (input : JsValue) :
    Except String JsValue :=
  agent.exec td (normalizeInputForCapabilities input (agent.capabilities.getD []))

/-- `decomposeTask`: under AUTO with at most one required capability the
task is atomic; otherwise one subtask per required capability, each named
`{name}_{capability}`, inheriting goal, run input and expected output and
requiring exactly that capability. -/
def decomposeTask (td : TaskDefinition) (input : JsValue)
    (strategy : DecompositionStrategy) : List TaskDefinition :=
  if strategy = .auto
      && (td.requiredCapabilities.isNone || (td.requiredCapabilities.getD []).length ≤ 1) then
    [td]
  else
    match td.requiredCapabilities with
    | some caps =>
      if caps.length > 0 then
        caps.map (fun capability =>
          { name := td.name ++ "_" ++ capability,
            description := "Handle " ++ capability ++ " aspect of " ++ td.name,
            goal := td.goal,
            input := input,
            requiredCapabilities := some [capability],
            expectedOutput := td.expectedOutput })
      else [td]
    | none => [td]

/-- `aggregateResults`: a single result is returned as is; several results
are shallow-merged in dispatch order. -/
def aggregateResults (results : List JsValue) : JsValue :=
  match results with
  | [r] => r
  | _ => results.foldl (fun acc r => objectAssign acc r) (.obj [])

/-- `evaluateResult`: disabled evaluation or no declared criteria pass with
score 1.0; otherwise one score per criterion (drawn from the `scoreOf`
oracle standing in for `0.5 + Math.random() * 0.5` — the placeholder
scoring never inspects the result value), averaged and compared against
the configured threshold (`|| 0.7`). -/
def evaluateResult (opts : OrchestratorOptions) (scoreOf : String → ℚ)
    (td : TaskDefinition) (_result : JsValue) : EvalResult :=
  if !opts.enableAutoEvaluation then { passed := true, score := 1 }
  else
    match td.evaluationCriteria with
    | none => { passed := true, score := 1 }
    | some criteria =>
      let evaluations := criteria.map (fun kc => (kc.1, scoreOf kc.1))
      let totalScore := (evaluations.map (fun kv => kv.2)).sum
      let averageScore := totalScore / (criteria.length : ℚ)
      let threshold :=
        if opts.evaluationThreshold = 0 then 7/10 else opts.evaluationThreshold
      { passed := decide (averageScore ≥ threshold), score := averageScore,
        criteria := some evaluations }

/-- The orchestrator's sequential subtask dispatch loop: per subtask,
select an agent, record the assignment, execute with the accumulated data,
then merge the result into the accumulator and record it as an
intermediate result.  Errors abort the loop and propagate. -/
def runSubtasks (agents : List Agent) (taskId : String) :
    List TaskDefinition → JsValue → List JsValue → OrchState →
    OrchState × Except String (JsValue × List JsValue)
  | [], accumulatedData, results, st => (st, .ok (accumulatedData, results))
  | subtask :: rest, accumulatedData, results, st =>
    match selectAgent agents subtask with
    | .error e => (st, .error e)
    | .ok agent =>
      let st1 := addAgent st taskId subtask.name agent.name
      match executeWithAgent agent subtask accumulatedData with
      | .error e => (st1, .error e)
      | .ok subtaskResult =>
        let st2 := addIntermediate st1 taskId subtask.name subtaskResult
        runSubtasks agents taskId rest (objectAssign accumulatedData subtaskResult)
          (results ++ [subtaskResult]) st2

/-- The catch block of `executeTask`: log the failure, mark the context
failed, re-raise. -/
def orchCatch (st : OrchState) (taskId : String) (e : String) :
    OrchState × Except String JsValue :=
  (setStatus (logToContext st taskId "error" ("Task failed: " ++ e)) taskId "failed", .error e)

/-- The opening lines of `executeTask`: mint a task id from the name and
the clock, create a fresh pending context, log `Starting task: {name}`,
and decompose (the fixed `analyzeTask` heuristic always selects AUTO);
the subtask names are saved into the context. -/
def beginTask (td : TaskDefinition) (input : JsValue) (st : OrchState) :
    String × OrchState × List TaskDefinition :=
  let taskId := td.name ++ "-" ++ toString st.now
  let st0 := { st with now := st.now + 1 }
  let st1 := createContext st0 taskId none input
  let st2 := logToContext st1 taskId "info" ("Starting task: " ++ td.name)
  let subtasks := decomposeTask td input .auto
  let st3 := setSubtasks st2 taskId (subtasks.map (fun sub => sub.name))
  (taskId, st3, subtasks)

/-- `handleEvaluation`: pass → return the aggregate; fail → scan the
current context's log for `Starting task` entries (`|| 1`) as the attempts
count and compare with `maxAttempts || options.maxRetries || 2`; exhausted
→ return the aggregate annotated with `_warning` and `_evaluation`;
otherwise recurse (through `recur`) on the input augmented with
`_previousAttempt`.  Each failing evaluation also appends one `EvalCheck`
observation record (instrumentation only). -/
def handleEvaluation (opts : OrchestratorOptions)
    (recur : JsValue → OrchState → OrchState × Except String JsValue)
    (taskId : String) (td : TaskDefinition) (result : JsValue)
    (evaluation : EvalResult) (originalInput : JsValue) (st : OrchState) :
    OrchState × Except String JsValue :=
  if evaluation.passed then (st, .ok result)
  else
    let n := attemptsScan st taskId
    let attempts := if n = 0 then 1 else n
    let fallback := if opts.maxRetries = 0 then 2 else opts.maxRetries
    let maxAllowed :=
      match td.maxAttempts with
      | some m => if m = 0 then fallback else m
      | none => fallback
    let st5 := { st with evalChecks := st.evalChecks ++
      [{ attempts := attempts, maxAllowed := maxAllowed,
         exhausted := decide (attempts > maxAllowed) }] }
    if attempts > maxAllowed then
      (st5, .ok (objectAssign (objectAssign (.obj []) result)
        (.obj [("_warning", .str "This result did not meet all quality criteria"),
               ("_evaluation", .evalRes evaluation)])))
    else
      recur (setKey (objectAssign (.obj []) originalInput) "_previousAttempt"
        (.obj [("result", result),
               ("evaluation", .evalRes evaluation),
               ("feedback", .str "Please improve on the previous attempt")]))
        st5

/-- `executeTask`: begin the task, dispatch the subtasks sequentially,
aggregate and evaluate, then handle the evaluation outcome; the context is
marked completed on success, and any error is logged, marks the context
failed and re-raises.  Fuel bounds the evaluation-retry recursion (a model
artifact; the source recursion is unbounded). -/
def executeTask (opts : OrchestratorOptions) (agents : List Agent)
    (scoreOf : String → ℚ) :
    Nat → TaskDefinition → JsValue → OrchState → OrchState × Except String JsValue
  | 0, _, _, st => (st, .error "fuel exhausted")
  | fuel + 1, td, input, st =>
    match beginTask td input st with
    | (taskId, st3, subtasks) =>
      match runSubtasks agents taskId subtasks (objectAssign (.obj []) input) [] st3 with
      | (st4, .error e) => orchCatch st4 taskId e
      | (st4, .ok (_, subtaskResults)) =>
        let aggregatedResult := aggregateResults subtaskResults
        let evaluation := evaluateResult opts scoreOf td aggregatedResult
        match handleEvaluation opts (executeTask opts agents scoreOf fuel td)
            taskId td aggregatedResult evaluation input st4 with
        | (st6, .ok v) => (setStatus st6 taskId "completed", .ok v)
        | (st6, .error e) => orchCatch st6 taskId e

end Agentify

namespace Agentify

/-- C1, counterexample.  In the two-step sequential workflow
`fetch → format` where `fetch` returns `{value: 7}` and `format`'s
mappings copy `steps.fetch.value` into `output.total`, the final
`context.output` after `execute` returns is NOT `{total: 7}`: `execute`
overwrites `context.output` with the interpreter's return value, which is
the last step's raw result `{value: 7}`. -/
theorem C1_counterexample :
    (executeRun tasksC1 10 wfC1 (.obj []) []).1.output ≠ .obj [("total", .num 7)] := by
  have h : (executeRun tasksC1 10 wfC1 (.obj []) []).1.output
      = .obj [("value", .num 7)] := rfl
  rw [h]
  simp

/-- C1, amended.  For the two-step sequential workflow `fetch → format`
(`fetch` returns `{value: 7}` with an empty output-map, `format` copies
`steps.fetch.value` into `output.total`): during execution the interpreter
accumulates `context.output = {total: 7}` and returns the last step's
result `{value: 7}`; but the `execute` wrapper then assigns that return
value to `context.output`, so after `execute` returns the caller reads
`context.output = {value: 7}` (the last step's result), and `execute`
returns the same value. -/
theorem C1_amended :
    (executeWorkflow tasksC1 10 wfC1 freshContext freshWorld).1.output
        = .obj [("total", .num 7)] ∧
    (executeWorkflow tasksC1 10 wfC1 freshContext freshWorld).2.2
        = .ok (.obj [("value", .num 7)]) ∧
    (executeRun tasksC1 10 wfC1 (.obj []) []).1.output
        = .obj [("value", .num 7)] ∧
    (executeRun tasksC1 10 wfC1 (.obj []) []).2.2
        = .ok (.obj [("value", .num 7)]) :=
  ⟨rfl, rfl, rfl, rfl⟩

/-- C5.  `evaluateResult` with no declared criteria — and likewise with
auto-evaluation disabled — returns `{passed: true, score: 1.0}` (and no
per-criterion map), regardless of the result value. -/
theorem C5_no_criteria_eval (opts : OrchestratorOptions) (scoreOf : String → ℚ)
    (td : TaskDefinition) (result : JsValue)
    (h : td.evaluationCriteria = none ∨ opts.enableAutoEvaluation = false) :
    evaluateResult opts scoreOf td result
      = { passed := true, score := 1, criteria := none } := by
  rcases h with h | h
  · cases hb : opts.enableAutoEvaluation <;> simp [evaluateResult, h, hb]
  · simp [evaluateResult, h]

/-- C5, witness at a concrete criteria-free task (and a concrete result
value). -/
theorem C5_no_criteria_eval_witness :
    evaluateResult {} (fun _ => 0) { name := "t", goal := "g" } (.num 3)
      = { passed := true, score := 1, criteria := none } :=
  C5_no_criteria_eval {} (fun _ => 0) { name := "t", goal := "g" } (.num 3) (Or.inl rfl)

/-- C8.  AUTO decomposition: a task with at most one required capability is
atomic (the single subtask is the task itself); a task with more than one
required capability decomposes into exactly one subtask per capability, in
order, each named `{parent}_{capability}`, carrying only that capability
and inheriting the parent's goal, run input and expected output. -/
theorem C8_decompose (td : TaskDefinition) (input : JsValue) :
    ((td.requiredCapabilities = none ∨
        ∃ caps, td.requiredCapabilities = some caps ∧ caps.length ≤ 1) →
      decomposeTask td input .auto = [td]) ∧
    (∀ caps, td.requiredCapabilities = some caps → 1 < caps.length →
      decomposeTask td input .auto = caps.map (fun capability =>
        { name := td.name ++ "_" ++ capability,
          description := "Handle " ++ capability ++ " aspect of " ++ td.name,
          goal := td.goal, input := input,
          requiredCapabilities := some [capability],
          expectedOutput := td.expectedOutput })) := by
  constructor
  · rintro (h | ⟨caps, hc, hlen⟩)
    · simp [decomposeTask, h]
    · simp [decomposeTask, hc, hlen]
  · intro caps hc hlen
    have hlen1 : ¬(caps.length ≤ 1) := by omega
    have hlen0 : 0 < caps.length := by omega
    simp [decomposeTask, hc, hlen1, hlen0]

/-- C8, witness: a task requiring `["research", "analyze", "write"]`
decomposes into exactly those three subtasks; a capability-free task stays
atomic. -/
theorem C8_decompose_witness :
    decomposeTask { name := "t0", goal := "g0" } (.obj []) .auto
        = [{ name := "t0", goal := "g0" }] ∧
    decomposeTask
        { name := "t3", goal := "g3",
          requiredCapabilities := some ["research", "analyze", "write"] }
        (.obj []) .auto
      = [{ name := "t3_research", description := "Handle research aspect of t3",
           goal := "g3", input := .obj [],
           requiredCapabilities := some ["research"] },
         { name := "t3_analyze", description := "Handle analyze aspect of t3",
           goal := "g3", input := .obj [],
           requiredCapabilities := some ["analyze"] },
         { name := "t3_write", description := "Handle write aspect of t3",
           goal := "g3", input := .obj [],
           requiredCapabilities := some ["write"] }] := by
  constructor
  · exact (C8_decompose { name := "t0", goal := "g0" } (.obj [])).1 (Or.inl rfl)
  · rw [(C8_decompose
      { name := "t3", goal := "g3",
        requiredCapabilities := some ["research", "analyze", "write"] }
      (.obj [])).2 ["research", "analyze", "write"] rfl (by decide)]
    rfl

end Agentify

namespace Agentify

/-- Entry points survive the `sequence` linking loop unchanged. -/
theorem linkSteps_entrypoint :
    ∀ (ids : List String) (b b2 : BuilderState),
      linkSteps b ids = .ok b2 → b2.entrypoint = b.entrypoint := by
  intro ids
  induction ids with
  | nil =>
    intro b b2 h
    simp [linkSteps] at h
    rw [← h]
  | cons x rest ih =>
    cases rest with
    | nil =>
      intro b b2 h
      simp [linkSteps] at h
      rw [← h]
    | cons y rest2 =>
      intro b b2 h
      simp only [linkSteps] at h
      cases hl : lookupField b.steps x with
      | none => rw [hl] at h; simp at h
      | some st =>
        rw [hl] at h
        by_cases hn : (lookupField b.steps y).isNone
        · simp [hn] at h
        · simp only [hn, Bool.false_eq_true, if_false, ite_false] at h
          have h2 := ih _ _ h
          exact h2

/-- C3, counterexample.  The fluent builder DOES reject a dangling `next`
reference at build time: linking `a → b` through `sequence` when step `b`
was never declared throws `Step b not found in workflow w` while building,
before any execution. -/
theorem C3_counterexample :
    (builderTask ["fetchT"] ⟨"w", [], ""⟩ "a" { taskName := "fetchT" }).bind
        (fun b => builderSequence b ["a", "b"])
      = .error "Step b not found in workflow w" := rfl

/-- C3, amended.  Any step id that traversal resolves and that is absent
from the definition's step mapping fails at traversal time with the
`Step {id} not found in workflow {wfId}` error (every reference — `next`,
parallel branch, condition target, Map iterator, Retry target — is
resolved through `executeStep`, whose first action is this lookup); and the
builder's `parallel` and `condition` methods store their branch/successor
ids without any existence check, so those dangling references are never
rejected at build time.  `sequence`, however — the only builder way to set
`next` — validates both ends of each link at build time (see the
counterexample). -/
theorem C3_amended :
    (∀ (tasks : List (String × RegisteredTask)) (fuel : Nat) (stepId : String)
        (wf : WorkflowDefinition) (ctx : WorkflowContext) (w : World),
      0 < fuel → lookupField wf.steps stepId = none →
      executeStep tasks fuel stepId wf ctx w
        = (ctx, w, .err (.stepNotFound stepId wf.id))) ∧
    (∀ (b : BuilderState) (id : String) (branches : List String) (wA : Option Bool),
      lookupField (builderParallel b id branches wA).steps id
        = some { id := id, next := none,
                 config := .parallel branches (decide (wA ≠ some false)) }) ∧
    (∀ (b : BuilderState) (id : String) (cond : WorkflowContext → Bool) (tN fN : String),
      lookupField (builderCondition b id cond tN fN).steps id
        = some { id := id, next := none, config := .condition cond tN fN }) := by
  refine ⟨?_, ?_, ?_⟩
  · intro tasks fuel stepId wf ctx w hfuel hnone
    cases fuel with
    | zero => omega
    | succ f => simp [executeStep, executeStepF, hnone]
  · intro b id branches wA
    simp [builderParallel, lookupField_setField_self]
  · intro b id cond tN fN
    simp [builderCondition, lookupField_setField_self]

/-- C3, witness: a missing step id fails a concrete one-step traversal with
the NotFound error, and a concrete `parallel` declaration with dangling
branch ids is stored, unrejected, by the builder. -/
theorem C3_amended_witness :
    executeStep [] 1 "ghost" ⟨"w", "w", [], "ghost"⟩ freshContext freshWorld
        = (freshContext, freshWorld, .err (.stepNotFound "ghost" "w")) ∧
    lookupField (builderParallel ⟨"w", [], ""⟩ "p" ["missing1", "missing2"] none).steps "p"
        = some { id := "p", next := none,
                 config := .parallel ["missing1", "missing2"] true } := by
  constructor
  · exact C3_amended.1 [] 1 "ghost" ⟨"w", "w", [], "ghost"⟩ freshContext freshWorld
      (by decide) rfl
  · exact C3_amended.2.1 ⟨"w", [], ""⟩ "p" ["missing1", "missing2"] none

/-- C4, counterexample.  With no entry point set explicitly, the entry
point is NOT the first-declared step when that step is a parallel step:
declaring parallel step `p` first and task step `t` second leaves the
entry point at `t`. -/
theorem C4_counterexample :
    (builderTask ["tk"] (builderParallel ⟨"w", [], ""⟩ "p" ["x", "y"] none) "t"
        { taskName := "tk" }).map (fun b => b.entrypoint) = .ok "t"
      ∧ ("t" : String) ≠ "p" :=
  ⟨rfl, by decide⟩

/-- C4, amended.  Entry-point auto-selection happens only in the builder's
`task` method (the first-declared TASK step when none is set) and in
`sequence` (the first id of the sequence when none is set); `parallel` and
`condition` declarations never touch the entry point, so a workflow whose
first-declared step is a parallel or condition step does not get it as
entry point from that declaration. -/
theorem C4_amended :
    (∀ (b : BuilderState) (id : String) (branches : List String) (wA : Option Bool),
      (builderParallel b id branches wA).entrypoint = b.entrypoint) ∧
    (∀ (b : BuilderState) (id : String) (cond : WorkflowContext → Bool) (tN fN : String),
      (builderCondition b id cond tN fN).entrypoint = b.entrypoint) ∧
    (∀ (kts : List String) (b : BuilderState) (id : String) (c : TaskStepConfig)
        (b2 : BuilderState),
      builderTask kts b id c = .ok b2 →
      b2.entrypoint = (if b.entrypoint = "" then id else b.entrypoint)) ∧
    (∀ (b : BuilderState) (ids : List String) (b2 : BuilderState), ids ≠ [] →
      builderSequence b ids = .ok b2 →
      b2.entrypoint = (if b.entrypoint = "" then ids.headD "" else b.entrypoint)) := by
  refine ⟨?_, ?_, ?_, ?_⟩
  · intro b id branches wA
    rfl
  · intro b id cond tN fN
    rfl
  · intro kts b id c b2 h
    simp only [builderTask] at h
    split at h
    · cases h
      rfl
    · cases h
  · intro b ids b2 hne h
    simp only [builderSequence, hne, if_false, ite_false] at h
    cases hl : linkSteps b ids with
    | error e => rw [hl] at h; simp at h
    | ok b1 =>
      rw [hl] at h
      simp only [Except.ok.injEq] at h
      rw [← h]
      simp [linkSteps_entrypoint ids b b1 hl]

/-- C4, witness: a first-declared task step becomes the entry point. -/
theorem C4_amended_witness :
    (⟨"w", [("t1", { id := "t1", next := none,
                     config := .task { taskName := "tk" } })], "t1"⟩ : BuilderState).entrypoint
      = (if ("" : String) = "" then "t1" else "") :=
  C4_amended.2.2.1 ["tk"] ⟨"w", [], ""⟩ "t1" { taskName := "tk" } _ rfl

end Agentify

namespace Agentify

/-- A pre-existing value on the write path is harmless when it is falsy
(the source replaces it with a fresh object) or an object (the source
descends into it); only a truthy non-object defeats the write. -/
def jsObjOrFalsy (v : Option JsValue) : Prop :=
  ∀ x, v = some x → truthy x = false ∨ ∃ fs, x = .obj fs

/-- The unit of work of the C7 counterexample: returns `{x: 7}`. -/
def echoXTask : RegisteredTask := ⟨fun _ _ => .ok (.obj [("x", .num 7)])⟩

/-- Context of the C7 counterexample: the accumulated output already holds
the truthy non-object `5` at `a.b`. -/
def ctxC7 : WorkflowContext :=
  { input := .obj [], steps := [], output := .obj [("a", .obj [("b", .num 5)])],
    currentStep := none, errors := [], metadata := [] }

/-- C7, counterexample.  A task step whose output-map targets `a.b.c` does
NOT set `context.output.a.b.c` when `context.output.a.b` is a pre-existing
truthy non-object (here the number 5): the output is left entirely
unchanged (in strict-mode JS the write would instead raise a `TypeError` —
either way `a.b.c` is never set to the mapped value). -/
theorem C7_counterexample :
    (executeTaskStep [("t", echoXTask)]
        { taskName := "t", outputMap := some [("x", "a.b.c")] } ctxC7 freshWorld).1.output
      = .obj [("a", .obj [("b", .num 5)])] ∧
    jsGetPath (some (executeTaskStep [("t", echoXTask)]
        { taskName := "t", outputMap := some [("x", "a.b.c")] } ctxC7 freshWorld).1.output)
      ["a", "b", "c"] = none :=
  ⟨rfl, rfl⟩

/-- C7, amended.  Applying an output-mapping to the nested dotted path
`a.b.c` — provided every pre-existing value at the intermediate positions
`a` and `a.b` is absent, falsy, or an object — creates the missing
intermediate objects, sets `output.a.b.c` to the mapped value, and leaves
every other key unchanged: all root keys other than `a`, all keys under
`a` other than `b`, and all sibling keys under `a.b` other than `c`.  (A
truthy non-object intermediate instead loses the write, as the
counterexample shows.) -/
theorem C7_amended (a b c : String) (val : JsValue) (F : List (String × JsValue))
    (H1 : jsObjOrFalsy (lookupField F a))
    (H2 : jsObjOrFalsy (jsGetPath (some (.obj F)) [a, b])) :
    jsGetPath (some (setPath (.obj F) [a, b, c] val)) [a, b, c] = some val ∧
    (∀ k, k ≠ a → jsGetPath (some (setPath (.obj F) [a, b, c] val)) [k]
        = jsGetPath (some (.obj F)) [k]) ∧
    (∀ k, k ≠ b → jsGetPath (some (setPath (.obj F) [a, b, c] val)) [a, k]
        = jsGetPath (some (.obj F)) [a, k]) ∧
    (∀ k, k ≠ c → jsGetPath (some (setPath (.obj F) [a, b, c] val)) [a, b, k]
        = jsGetPath (some (.obj F)) [a, b, k]) := by
  classical
  have hwrite : setPath (.obj F) [a, b, c] val
      = .obj (setField F a (setPath
          (match lookupField F a with
           | some x => if truthy x then x else .obj []
           | none => .obj []) [b, c] val)) := rfl
  rcases hA : lookupField F a with _ | vA
  · -- `a` absent: the whole chain `{b: {c: val}}` is created under `a`
    refine ⟨?_, ?_, ?_, ?_⟩
    · simp [hwrite, hA, jsGetPath, getKey, setPath, setKey, setField,
        lookupField_setField_self, lookupField]
    · intro k hk
      simp [hwrite, hA, jsGetPath, getKey, lookupField_setField_ne _ _ _ _ hk]
    · intro k hk
      simp [hwrite, hA, jsGetPath, getKey, setPath, setKey, setField,
        lookupField_setField_self, lookupField, hk, Ne.symm hk]
    · intro k hk
      simp [hwrite, hA, jsGetPath, getKey, setPath, setKey, setField,
        lookupField_setField_self, lookupField, hk, Ne.symm hk]
  · rcases H1 vA hA with hfal | ⟨fsA, rfl⟩
    · -- `a` present but falsy: replaced by a fresh object as above
      refine ⟨?_, ?_, ?_, ?_⟩
      · simp [hwrite, hA, hfal, jsGetPath, getKey, setPath, setKey, setField,
          lookupField_setField_self, lookupField]
      · intro k hk
        simp [hwrite, hA, hfal, jsGetPath, getKey,
          lookupField_setField_ne _ _ _ _ hk]
      · intro k hk
        cases vA <;> simp_all [hwrite, hA, truthy, jsGetPath, getKey, setPath,
          setKey, setField, lookupField_setField_self, lookupField, hk, Ne.symm hk]
      · intro k hk
        cases vA <;> simp_all [hwrite, hA, truthy, jsGetPath, getKey, setPath,
          setKey, setField, lookupField_setField_self, lookupField, hk, Ne.symm hk]
    · -- `a` is an object: descend
      have hBspec : jsGetPath (some (.obj F)) [a, b] = lookupField fsA b := by
        simp [jsGetPath, getKey, hA]
      have hinner : setPath (.obj fsA) [b, c] val
          = .obj (setField fsA b (setPath
              (match lookupField fsA b with
               | some x => if truthy x then x else .obj []
               | none => .obj []) [c] val)) := rfl
      rcases hB : lookupField fsA b with _ | vB
      · refine ⟨?_, ?_, ?_, ?_⟩
        · simp [hwrite, hA, truthy, hinner, hB, jsGetPath, getKey, setPath,
            setKey, setField, lookupField_setField_self, lookupField]
        · intro k hk
          simp [hwrite, hA, truthy, jsGetPath, getKey,
            lookupField_setField_ne _ _ _ _ hk]
        · intro k hk
          simp [hwrite, hA, truthy, hinner, hB, jsGetPath, getKey,
            lookupField_setField_self, lookupField_setField_ne _ _ _ _ hk]
        · intro k hk
          simp [hwrite, hA, truthy, hinner, hB, jsGetPath, getKey, setPath,
            setKey, setField, lookupField_setField_self, lookupField, hk,
            Ne.symm hk]
      · rcases H2 vB (by rw [hBspec, hB]) with hfalB | ⟨fsB, rfl⟩
        · refine ⟨?_, ?_, ?_, ?_⟩
          · cases vB <;> simp_all [hwrite, hA, truthy, hinner, hB, jsGetPath,
              getKey, setPath, setKey, setField, lookupField_setField_self,
              lookupField]
          · intro k hk
            simp [hwrite, hA, truthy, jsGetPath, getKey,
              lookupField_setField_ne _ _ _ _ hk]
          · intro k hk
            cases vB <;> simp_all [hwrite, hA, truthy, hinner, hB, jsGetPath,
              getKey, setPath, setKey, setField, lookupField_setField_self,
              lookupField_setField_ne _ _ _ _ hk]
          · intro k hk
            cases vB <;> simp_all [hwrite, hA, truthy, hinner, hB, jsGetPath,
              getKey, setPath, setKey, setField, lookupField_setField_self,
              lookupField, hk, Ne.symm hk]
        · refine ⟨?_, ?_, ?_, ?_⟩
          · simp [hwrite, hA, truthy, hinner, hB, jsGetPath, getKey, setPath,
              setKey, setField, lookupField_setField_self, lookupField]
          · intro k hk
            simp [hwrite, hA, truthy, jsGetPath, getKey,
              lookupField_setField_ne _ _ _ _ hk]
          · intro k hk
            simp [hwrite, hA, truthy, hinner, hB, jsGetPath, getKey,
              lookupField_setField_self, lookupField_setField_ne _ _ _ _ hk]
          · intro k hk
            simp [hwrite, hA, truthy, hinner, hB, jsGetPath, getKey, setPath,
              setKey, lookupField_setField_self,
              lookupField_setField_ne _ _ _ _ hk]

/-- C7, witness: mapping `7` to `a.b.c` over the output
`{a: {b: {d: 1}, e: 2}, f: 3}` sets `a.b.c = 7` and preserves the siblings
`a.b.d`, `a.e` and `f`. -/
theorem C7_amended_witness :
    jsGetPath (some (setPath
        (.obj [("a", .obj [("b", .obj [("d", .num 1)]), ("e", .num 2)]), ("f", .num 3)])
        ["a", "b", "c"] (.num 7))) ["a", "b", "c"] = some (.num 7) ∧
    jsGetPath (some (setPath
        (.obj [("a", .obj [("b", .obj [("d", .num 1)]), ("e", .num 2)]), ("f", .num 3)])
        ["a", "b", "c"] (.num 7))) ["a", "b", "d"] = some (.num 1) := by
  have h := C7_amended "a" "b" "c" (.num 7)
    [("a", .obj [("b", .obj [("d", .num 1)]), ("e", .num 2)]), ("f", .num 3)]
    (by intro x hx; cases Option.some.inj hx; exact Or.inr ⟨_, rfl⟩)
    (by intro x hx; cases Option.some.inj hx; exact Or.inr ⟨_, rfl⟩)
  refine ⟨h.1, ?_⟩
  rw [h.2.2.2 "d" (by decide)]
  rfl

end Agentify

namespace Agentify

/-- A unit of work that throws on every invocation; the thrown value may
depend on the invocation index. -/
def failingTask (errs : Nat → JsValue) : RegisteredTask :=
  ⟨fun _ n => .error (errs n)⟩

/-- The transient retry copy of a Task step with a decremented budget (the
`retryStep` object built in `executeStep`'s catch block). -/
def retryStepCopy (step : WorkflowStep) (cfg : TaskStepConfig) (r : Nat) : WorkflowStep :=
  { step with config := .task { cfg with retries := some r } }

/-- The transient definition copy substituting the retry step copy. -/
def retryWfCopy (wf : WorkflowDefinition) (stepId : String) (step : WorkflowStep)
    (cfg : TaskStepConfig) (r : Nat) : WorkflowDefinition :=
  { wf with steps := setField wf.steps stepId (retryStepCopy step cfg r) }

/-- The context after a step failure: `currentStep` set and the error
recorded under the step id. -/
def failCtx (ctx : WorkflowContext) (stepId : String) (e : WfError) : WorkflowContext :=
  { ctx with currentStep := some stepId, errors := setField ctx.errors stepId e }

theorem countOf_recordInvocation (w : World) (name : String) :
    countOf (recordInvocation w name) name = countOf w name + 1 := by
  simp [countOf, recordInvocation, lookupField_setField_self]

/-- One failing execution of a Task step with remaining retry budget
`r + 1` (and no configured retry delay): the error is recorded under the
step id, the invocation is counted, and the same step id is re-executed
against a transient copy of the definition with the budget decremented. -/
theorem executeStep_task_fail_retry
    (tasks : List (String × RegisteredTask)) (fuel : Nat) (stepId : String)
    (wf : WorkflowDefinition) (ctx : WorkflowContext) (w : World)
    (errs : Nat → JsValue) (step : WorkflowStep) (cfg : TaskStepConfig) (r : Nat)
    (hstep : lookupField wf.steps stepId = some step)
    (hcfg : step.config = .task cfg)
    (htask : lookupField tasks cfg.taskName = some (failingTask errs))
    (hcond : cfg.condition = none)
    (hdelay : cfg.retryDelay = none)
    (hr : cfg.retries = some (r + 1)) :
    executeStep tasks (fuel + 1) stepId wf ctx w
      = executeStep tasks fuel stepId (retryWfCopy wf stepId step cfg r)
          (failCtx ctx stepId (.taskThrew (errs (countOf w cfg.taskName))))
          (recordInvocation w cfg.taskName) := by
  simp only [executeStep, executeStepF, hstep, hcfg, executeTaskStep, htask,
    hcond, failingTask, hr, hdelay, retryWfCopy, retryStepCopy, failCtx,
    Nat.succ_pos, Nat.add_sub_cancel, gt_iff_lt, if_true, ite_true]

/-- One failing execution of a Task step with an exhausted (or absent)
retry budget: the error is recorded and re-raised. -/
theorem executeStep_task_fail_stop
    (tasks : List (String × RegisteredTask)) (fuel : Nat) (stepId : String)
    (wf : WorkflowDefinition) (ctx : WorkflowContext) (w : World)
    (errs : Nat → JsValue) (step : WorkflowStep) (cfg : TaskStepConfig)
    (hstep : lookupField wf.steps stepId = some step)
    (hcfg : step.config = .task cfg)
    (htask : lookupField tasks cfg.taskName = some (failingTask errs))
    (hcond : cfg.condition = none)
    (hr : cfg.retries = some 0 ∨ cfg.retries = none) :
    executeStep tasks (fuel + 1) stepId wf ctx w
      = (failCtx ctx stepId (.taskThrew (errs (countOf w cfg.taskName))),
         recordInvocation w cfg.taskName,
         .err (.taskThrew (errs (countOf w cfg.taskName)))) := by
  rcases hr with hr | hr <;>
    simp only [executeStep, executeStepF, hstep, hcfg, executeTaskStep, htask,
      hcond, failingTask, hr, failCtx, Nat.lt_irrefl, gt_iff_lt, if_false,
      ite_false]

/-- C6, amended.  A Task step with `retries = 2` whose unit of work throws
on every invocation is invoked exactly 3 times (1 initial + 2 retries,
each retry decrementing the budget in a transient copy of the definition),
and the error that propagates out of the step is the LAST attempt's error
(the thrown value of invocation index 2), not the original one.  Stated
for a step with no gating predicate and no configured retry delay. -/
theorem C6_amended
    (tasks : List (String × RegisteredTask)) (fuel : Nat) (stepId : String)
    (wf : WorkflowDefinition) (ctx : WorkflowContext) (w : World)
    (errs : Nat → JsValue) (step : WorkflowStep) (cfg : TaskStepConfig)
    (hstep : lookupField wf.steps stepId = some step)
    (hcfg : step.config = .task cfg)
    (htask : lookupField tasks cfg.taskName = some (failingTask errs))
    (hcond : cfg.condition = none)
    (hdelay : cfg.retryDelay = none)
    (hr : cfg.retries = some 2) :
    countOf (executeStep tasks (fuel + 3) stepId wf ctx w).2.1 cfg.taskName
        = countOf w cfg.taskName + 3 ∧
    (executeStep tasks (fuel + 3) stepId wf ctx w).2.2
        = .err (.taskThrew (errs (countOf w cfg.taskName + 2))) := by
  have h1 := executeStep_task_fail_retry tasks (fuel + 2) stepId wf ctx w errs
    step cfg 1 hstep hcfg htask hcond hdelay (by rw [hr])
  have h2 := executeStep_task_fail_retry tasks (fuel + 1) stepId
    (retryWfCopy wf stepId step cfg 1)
    (failCtx ctx stepId (.taskThrew (errs (countOf w cfg.taskName))))
    (recordInvocation w cfg.taskName) errs
    (retryStepCopy step cfg 1) { cfg with retries := some 1 } 0
    (lookupField_setField_self _ _ _) rfl htask hcond hdelay rfl
  have h3 := executeStep_task_fail_stop tasks fuel stepId
    (retryWfCopy (retryWfCopy wf stepId step cfg 1) stepId (retryStepCopy step cfg 1)
      { cfg with retries := some 1 } 0)
    (failCtx (failCtx ctx stepId (.taskThrew (errs (countOf w cfg.taskName)))) stepId
      (.taskThrew (errs (countOf (recordInvocation w cfg.taskName) cfg.taskName))))
    (recordInvocation (recordInvocation w cfg.taskName) cfg.taskName) errs
    (retryStepCopy (retryStepCopy step cfg 1) { cfg with retries := some 1 } 0)
    { cfg with retries := some 0 }
    (lookupField_setField_self _ _ _) rfl htask hcond (Or.inl rfl)
  rw [show fuel + 3 = (fuel + 2) + 1 from rfl, h1, h2, h3]
  refine ⟨?_, ?_⟩
  · simp [countOf_recordInvocation]
  · simp [countOf_recordInvocation]

/-- The one-step workflow of the C6 counterexample: a single Task step `s`
with `retries = 2` over the always-failing task `t`. -/
def wfC6 : WorkflowDefinition :=
  { id := "w6", name := "w6",
    steps := [("s", { id := "s",
                      config := .task { taskName := "t", retries := some 2 } })],
    entrypoint := "s" }

/-- C6, counterexample.  With the failing task throwing its invocation
index, the step is invoked 3 times but the error that propagates is the
LAST attempt's (`2`), not the original one (`0`): the claim's "the
original error propagates" fails whenever the attempts throw distinct
errors. -/
theorem C6_counterexample :
    (executeStep [("t", failingTask (fun n => .num n))] 5 "s" wfC6
        freshContext freshWorld).2.2
      = .err (.taskThrew (.num 2)) ∧
    countOf (executeStep [("t", failingTask (fun n => .num n))] 5 "s" wfC6
        freshContext freshWorld).2.1 "t" = 3 ∧
    JsValue.num 2 ≠ JsValue.num 0 :=
  ⟨rfl, rfl, by simp⟩

/-- C6, witness: the amended theorem applied to the concrete one-step
workflow. -/
theorem C6_amended_witness :
    countOf (executeStep [("t", failingTask (fun n => .num n))] 5 "s" wfC6
        freshContext freshWorld).2.1 "t" = countOf freshWorld "t" + 3 ∧
    (executeStep [("t", failingTask (fun n => .num n))] 5 "s" wfC6
        freshContext freshWorld).2.2
      = .err (.taskThrew ((fun n => JsValue.num n) (countOf freshWorld "t" + 2))) :=
  C6_amended [("t", failingTask (fun n => .num n))] 2 "s" wfC6
    freshContext freshWorld (fun n => .num n)
    { id := "s", config := .task { taskName := "t", retries := some 2 } }
    { taskName := "t", retries := some 2 }
    rfl rfl rfl rfl rfl rfl

end Agentify

namespace Agentify

/-- Task registry of the Retry-step scenario: the single always-failing
task `t`. -/
def tasksC9 (errs : Nat → JsValue) : List (String × RegisteredTask) :=
  [("t", failingTask errs)]

/-- Config of the Retry step under study. -/
def cfgC9 (maxR d bf : Nat) (p : Option (WfError → Nat → Bool)) : RetryStepConfig :=
  { stepId := "s", maxRetries := maxR, delay := some d, backoffFactor := some bf,
    condition := p }

/-- Two-step workflow: Retry step `r` wrapping the referenced Task step `s`
(which has no inline retry budget of its own). -/
def wfC9 (maxR d bf : Nat) (p : Option (WfError → Nat → Bool)) : WorkflowDefinition :=
  { id := "w9", name := "w9",
    steps := [("r", { id := "r", config := .retry (cfgC9 maxR d bf p) }),
              ("s", { id := "s", config := .task { taskName := "t" } })],
    entrypoint := "r" }

/-- The retry loop of the `r` step, as invoked by the interpreter with the
one-step executor at the remaining fuel. -/
def retryRunC9 (errs : Nat → JsValue) (maxR d bf : Nat)
    (p : Option (WfError → Nat → Bool)) (g attempts : Nat)
    (ctx : WorkflowContext) (w : World) : WorkflowContext × World × Outcome :=
  retryAttempt
    (fun sid c ww => executeStep (tasksC9 errs) (g + 1) sid (wfC9 maxR d bf p) c ww)
    (cfgC9 maxR d bf p) attempts ctx w

/-- Each execution of the target step `s` throws the failing task's
current-invocation error and records it in the shared context. -/
theorem wfC9_target_fails (errs : Nat → JsValue) (maxR d bf : Nat)
    (p : Option (WfError → Nat → Bool)) (g : Nat)
    (ctx : WorkflowContext) (w : World) :
    executeStep (tasksC9 errs) (g + 1) "s" (wfC9 maxR d bf p) ctx w
      = (failCtx ctx "s" (.taskThrew (errs (countOf w "t"))),
         recordInvocation w "t",
         .err (.taskThrew (errs (countOf w "t")))) :=
  executeStep_task_fail_stop (tasksC9 errs) g "s" (wfC9 maxR d bf p) ctx w errs
    { id := "s", config := .task { taskName := "t" } } { taskName := "t" }
    rfl rfl rfl rfl (Or.inr rfl)

/-- An `executeStepF` layer over a Retry step whose retry loop fails:
the last error is recorded under the Retry step's id and re-raised
(a Retry step has no task-local retry budget). -/
theorem executeStepF_retry_err (tasks : List (String × RegisteredTask))
    (recur : String → WorkflowDefinition → WorkflowContext → World →
      WorkflowContext × World × Outcome)
    (stepId : String) (wf : WorkflowDefinition) (ctx : WorkflowContext) (w : World)
    (step : WorkflowStep) (cfg : RetryStepConfig)
    (ctx1 : WorkflowContext) (w1 : World) (e : WfError)
    (hstep : lookupField wf.steps stepId = some step)
    (hcfg : step.config = .retry cfg)
    (hrun : retryAttempt (fun sid c ww => recur sid wf c ww) cfg 0
        { ctx with currentStep := some stepId } w = (ctx1, w1, .err e)) :
    executeStepF tasks recur stepId wf ctx w
      = ({ ctx1 with errors := setField ctx1.errors stepId e }, w1, .err e) := by
  simp only [executeStepF, hstep, hcfg, executeRetryStep, hrun]

/-- The context after one retry-loop failure: the attempt error recorded
under `{stepId}_attempt_{n}`. -/
def attemptErrCtx (ctx : WorkflowContext) (key : String) (e : WfError) : WorkflowContext :=
  { ctx with errors := setField ctx.errors key e }

/-- One retrying iteration of the loop (no veto predicate, attempts
remain): record the target's error and the attempt error, count the
invocation, wait `d * bf ^ attempts`, and loop at the next attempt. -/
theorem retryRunC9_step (errs : Nat → JsValue) (maxR d bf g attempts : Nat)
    (ctx : WorkflowContext) (w : World) (hlt : attempts < maxR) :
    retryRunC9 errs maxR d bf none g attempts ctx w
      = retryRunC9 errs maxR d bf none g (attempts + 1)
          (attemptErrCtx (failCtx ctx "s" (.taskThrew (errs (countOf w "t"))))
            ("s" ++ "_attempt_" ++ toString attempts)
            (.taskThrew (errs (countOf w "t"))))
          { recordInvocation w "t" with
            waits := (recordInvocation w "t").waits ++ [d * bf ^ attempts] } := by
  simp only [retryRunC9, cfgC9]
  rw [retryAttempt, wfC9_target_fails]
  simp only [cfgC9, hlt, dite_true, Option.getD_some, Bool.false_eq_true,
    if_false, ite_false]
  rfl

/-- The final iteration of the loop (attempts exhausted): record the
errors, count the invocation, and re-raise. -/
theorem retryRunC9_last (errs : Nat → JsValue) (maxR d bf g : Nat)
    (ctx : WorkflowContext) (w : World) :
    retryRunC9 errs maxR d bf none g maxR ctx w
      = (attemptErrCtx (failCtx ctx "s" (.taskThrew (errs (countOf w "t"))))
           ("s" ++ "_attempt_" ++ toString maxR)
           (.taskThrew (errs (countOf w "t"))),
         recordInvocation w "t",
         .err (.taskThrew (errs (countOf w "t")))) := by
  simp only [retryRunC9, cfgC9]
  rw [retryAttempt, wfC9_target_fails]
  simp only [cfgC9, Nat.lt_irrefl, dite_false]
  rfl

/-- The retry loop over the always-failing target with no veto predicate:
starting at a given attempt index, it performs one target execution per
remaining attempt plus the final one, the waits grow as
`d * bf ^ n` for each failed attempt `n` that still retries, and the loop
re-raises the last attempt's error. -/
theorem retryRunC9_noveto (errs : Nat → JsValue) (maxR d bf g : Nat) :
    ∀ k attempts ctx w, maxR - attempts = k → attempts ≤ maxR →
    (retryRunC9 errs maxR d bf none g attempts ctx w).2.2
        = .err (.taskThrew (errs (countOf w "t" + (maxR - attempts)))) ∧
    countOf (retryRunC9 errs maxR d bf none g attempts ctx w).2.1 "t"
        = countOf w "t" + (maxR - attempts) + 1 ∧
    (retryRunC9 errs maxR d bf none g attempts ctx w).2.1.waits
        = w.waits ++ (List.range' attempts (maxR - attempts)).map
            (fun n => d * bf ^ n) := by
  intro k
  induction k with
  | zero =>
    intro attempts ctx w hk hle
    have ha : attempts = maxR := by omega
    subst ha
    rw [retryRunC9_last]
    refine ⟨by simp, ?_, ?_⟩
    · simp [countOf_recordInvocation]
    · simp [recordInvocation, List.range']
  | succ k ih =>
    intro attempts ctx w hk hle
    have hlt : attempts < maxR := by omega
    rw [retryRunC9_step errs maxR d bf g attempts ctx w hlt]
    have ih2 := ih (attempts + 1)
      (attemptErrCtx (failCtx ctx "s" (.taskThrew (errs (countOf w "t"))))
        ("s" ++ "_attempt_" ++ toString attempts)
        (.taskThrew (errs (countOf w "t"))))
      { recordInvocation w "t" with
        waits := (recordInvocation w "t").waits ++ [d * bf ^ attempts] }
      (by omega) (by omega)
    have hw2 : countOf { recordInvocation w "t" with
        waits := (recordInvocation w "t").waits ++ [d * bf ^ attempts] } "t"
        = countOf w "t" + 1 := by
      simp [countOf, recordInvocation, lookupField_setField_self]
    have harg : countOf { recordInvocation w "t" with
        waits := (recordInvocation w "t").waits ++ [d * bf ^ attempts] } "t"
          + (maxR - (attempts + 1))
        = countOf w "t" + (maxR - attempts) := by
      rw [hw2]; omega
    refine ⟨?_, ?_, ?_⟩
    · rw [ih2.1, harg]
    · rw [ih2.2.1, hw2]
      omega
    · rw [ih2.2.2]
      have hrw : ({ recordInvocation w "t" with
          waits := (recordInvocation w "t").waits ++ [d * bf ^ attempts] } : World).waits
          = w.waits ++ [d * bf ^ attempts] := rfl
      rw [hrw]
      have hr : List.range' attempts (maxR - attempts)
          = attempts :: List.range' (attempts + 1) (maxR - (attempts + 1)) := by
        have h1 : maxR - attempts = (maxR - (attempts + 1)) + 1 := by omega
        rw [h1, List.range'_succ]
      rw [hr]
      simp

end Agentify

namespace Agentify

/-- One retrying iteration of the loop when the veto predicate approves
(`p error attempts = true`). -/
theorem retryRunC9_veto_step (errs : Nat → JsValue) (maxR d bf : Nat)
    (p : WfError → Nat → Bool) (g attempts : Nat)
    (ctx : WorkflowContext) (w : World) (hlt : attempts < maxR)
    (hp : p (.taskThrew (errs (countOf w "t"))) attempts = true) :
    retryRunC9 errs maxR d bf (some p) g attempts ctx w
      = retryRunC9 errs maxR d bf (some p) g (attempts + 1)
          (attemptErrCtx (failCtx ctx "s" (.taskThrew (errs (countOf w "t"))))
            ("s" ++ "_attempt_" ++ toString attempts)
            (.taskThrew (errs (countOf w "t"))))
          { recordInvocation w "t" with
            waits := (recordInvocation w "t").waits ++ [d * bf ^ attempts] } := by
  simp only [retryRunC9, cfgC9]
  rw [retryAttempt, wfC9_target_fails]
  simp only [cfgC9, hlt, dite_true, hp, Bool.not_true, Bool.false_eq_true,
    if_false, ite_false, Option.getD_some]
  rfl

/-- The vetoing iteration: the predicate returns false, so the loop stops
immediately with the current error (no wait, no further attempt). -/
theorem retryRunC9_veto_stop (errs : Nat → JsValue) (maxR d bf : Nat)
    (p : WfError → Nat → Bool) (g attempts : Nat)
    (ctx : WorkflowContext) (w : World) (hlt : attempts < maxR)
    (hp : p (.taskThrew (errs (countOf w "t"))) attempts = false) :
    retryRunC9 errs maxR d bf (some p) g attempts ctx w
      = (attemptErrCtx (failCtx ctx "s" (.taskThrew (errs (countOf w "t"))))
           ("s" ++ "_attempt_" ++ toString attempts)
           (.taskThrew (errs (countOf w "t"))),
         recordInvocation w "t",
         .err (.taskThrew (errs (countOf w "t")))) := by
  simp only [retryRunC9, cfgC9]
  rw [retryAttempt, wfC9_target_fails]
  simp only [cfgC9, hlt, dite_true, hp, Bool.not_false, if_true, ite_true]
  rfl

/-- The retry loop with a veto predicate that first returns false at
attempt `kv`: exactly the attempts up to and including `kv` run, waits
accrue only for the retried attempts, and attempt `kv`'s error is
re-raised immediately. -/
theorem retryRunC9_veto (errs : Nat → JsValue) (maxR d bf : Nat)
    (p : WfError → Nat → Bool) (g : Nat) :
    ∀ j kv attempts ctx w, kv - attempts = j → attempts ≤ kv → kv < maxR →
    countOf w "t" = attempts →
    (∀ i, attempts ≤ i → i < kv → p (.taskThrew (errs i)) i = true) →
    p (.taskThrew (errs kv)) kv = false →
    (retryRunC9 errs maxR d bf (some p) g attempts ctx w).2.2
        = .err (.taskThrew (errs kv)) ∧
    countOf (retryRunC9 errs maxR d bf (some p) g attempts ctx w).2.1 "t"
        = kv + 1 ∧
    (retryRunC9 errs maxR d bf (some p) g attempts ctx w).2.1.waits
        = w.waits ++ (List.range' attempts (kv - attempts)).map
            (fun n => d * bf ^ n) := by
  intro j
  induction j with
  | zero =>
    intro kv attempts ctx w hj hle hkv hofs htrue hfalse
    have ha : attempts = kv := by omega
    subst ha
    have hp : p (.taskThrew (errs (countOf w "t"))) attempts = false := by
      rw [hofs]; exact hfalse
    rw [retryRunC9_veto_stop errs maxR d bf p g attempts ctx w (by omega) hp]
    refine ⟨by rw [hofs], ?_, ?_⟩
    · rw [countOf_recordInvocation, hofs]
    · simp [recordInvocation, List.range']
  | succ j ih =>
    intro kv attempts ctx w hj hle hkv hofs htrue hfalse
    have hlt : attempts < kv := by omega
    have hp : p (.taskThrew (errs (countOf w "t"))) attempts = true := by
      rw [hofs]; exact htrue attempts (Nat.le_refl _) hlt
    rw [retryRunC9_veto_step errs maxR d bf p g attempts ctx w (by omega) hp]
    have hw2 : countOf { recordInvocation w "t" with
        waits := (recordInvocation w "t").waits ++ [d * bf ^ attempts] } "t"
        = attempts + 1 := by
      simp [countOf, recordInvocation, lookupField_setField_self]
      rw [show (lookupField w.invocations "t").getD 0 = countOf w "t" from rfl, hofs]
    have ih2 := ih kv (attempts + 1)
      (attemptErrCtx (failCtx ctx "s" (.taskThrew (errs (countOf w "t"))))
        ("s" ++ "_attempt_" ++ toString attempts)
        (.taskThrew (errs (countOf w "t"))))
      { recordInvocation w "t" with
        waits := (recordInvocation w "t").waits ++ [d * bf ^ attempts] }
      (by omega) (by omega) hkv hw2
      (fun i hi1 hi2 => htrue i (by omega) hi2) hfalse
    refine ⟨ih2.1, ih2.2.1, ?_⟩
    rw [ih2.2.2]
    have hrw : ({ recordInvocation w "t" with
        waits := (recordInvocation w "t").waits ++ [d * bf ^ attempts] } : World).waits
        = w.waits ++ [d * bf ^ attempts] := rfl
    rw [hrw]
    have hr : List.range' attempts (kv - attempts)
        = attempts :: List.range' (attempts + 1) (kv - (attempts + 1)) := by
      have h1 : kv - attempts = (kv - (attempts + 1)) + 1 := by omega
      rw [h1, List.range'_succ]
    rw [hr]
    simp

/-- C9.  A Retry step with parameters `maxRetries`, `delay` and
`backoffFactor` over a target that fails on every attempt: with no veto
predicate, the target is attempted exactly `maxRetries + 1` times, the
wait after 0-indexed failed attempt `n` is `delay * backoffFactor ^ n`
(no wait after the final attempt), and the last attempt's error is
re-raised; with a predicate that first returns false at attempt `kv`
(`kv < maxRetries`), exactly `kv + 1` attempts run and attempt `kv`'s
error is re-raised immediately, with no further wait. -/
theorem C9_retry_backoff (errs : Nat → JsValue) (maxR d bf g : Nat) :
    (countOf (executeStep (tasksC9 errs) (g + 2) "r" (wfC9 maxR d bf none)
          freshContext freshWorld).2.1 "t" = maxR + 1 ∧
     (executeStep (tasksC9 errs) (g + 2) "r" (wfC9 maxR d bf none)
          freshContext freshWorld).2.1.waits
        = (List.range maxR).map (fun n => d * bf ^ n) ∧
     (executeStep (tasksC9 errs) (g + 2) "r" (wfC9 maxR d bf none)
          freshContext freshWorld).2.2
        = .err (.taskThrew (errs maxR))) ∧
    (∀ (p : WfError → Nat → Bool) (kv : Nat), kv < maxR →
      (∀ i, i < kv → p (.taskThrew (errs i)) i = true) →
      p (.taskThrew (errs kv)) kv = false →
      countOf (executeStep (tasksC9 errs) (g + 2) "r" (wfC9 maxR d bf (some p))
            freshContext freshWorld).2.1 "t" = kv + 1 ∧
      (executeStep (tasksC9 errs) (g + 2) "r" (wfC9 maxR d bf (some p))
            freshContext freshWorld).2.1.waits
          = (List.range kv).map (fun n => d * bf ^ n) ∧
      (executeStep (tasksC9 errs) (g + 2) "r" (wfC9 maxR d bf (some p))
            freshContext freshWorld).2.2
          = .err (.taskThrew (errs kv))) := by
  constructor
  · have hrun := retryRunC9_noveto errs maxR d bf g maxR 0
      { freshContext with currentStep := some "r" } freshWorld rfl (Nat.zero_le _)
    simp only [show countOf freshWorld "t" = 0 from rfl, Nat.zero_add,
      Nat.sub_zero] at hrun
    rcases hres : retryRunC9 errs maxR d bf none g 0
        { freshContext with currentStep := some "r" } freshWorld with ⟨ctx1, w1, oc⟩
    rw [hres] at hrun
    obtain ⟨hoc, hcnt, hwaits⟩ := hrun
    subst hoc
    have hstep := executeStepF_retry_err (tasksC9 errs)
      (executeStep (tasksC9 errs) (g + 1)) "r" (wfC9 maxR d bf none)
      freshContext freshWorld
      { id := "r", config := .retry (cfgC9 maxR d bf none) } (cfgC9 maxR d bf none)
      ctx1 w1 (.taskThrew (errs maxR)) rfl rfl hres
    have hfold : executeStep (tasksC9 errs) (g + 2) "r" (wfC9 maxR d bf none)
        freshContext freshWorld
        = executeStepF (tasksC9 errs) (executeStep (tasksC9 errs) (g + 1)) "r"
            (wfC9 maxR d bf none) freshContext freshWorld := rfl
    rw [hfold, hstep]
    refine ⟨hcnt, ?_, rfl⟩
    rw [hwaits]
    simp [List.range_eq_range', freshWorld]
  · intro p kv hkv htrue hfalse
    have hrun := retryRunC9_veto errs maxR d bf p g kv kv 0
      { freshContext with currentStep := some "r" } freshWorld rfl (Nat.zero_le _)
      hkv rfl (fun i hi1 hi2 => htrue i hi2) hfalse
    rcases hres : retryRunC9 errs maxR d bf (some p) g 0
        { freshContext with currentStep := some "r" } freshWorld with ⟨ctx1, w1, oc⟩
    rw [hres] at hrun
    obtain ⟨hoc, hcnt, hwaits⟩ := hrun
    subst hoc
    have hstep := executeStepF_retry_err (tasksC9 errs)
      (executeStep (tasksC9 errs) (g + 1)) "r" (wfC9 maxR d bf (some p))
      freshContext freshWorld
      { id := "r", config := .retry (cfgC9 maxR d bf (some p)) }
      (cfgC9 maxR d bf (some p)) ctx1 w1 (.taskThrew (errs kv)) rfl rfl hres
    have hfold : executeStep (tasksC9 errs) (g + 2) "r" (wfC9 maxR d bf (some p))
        freshContext freshWorld
        = executeStepF (tasksC9 errs) (executeStep (tasksC9 errs) (g + 1)) "r"
            (wfC9 maxR d bf (some p)) freshContext freshWorld := rfl
    rw [hfold, hstep]
    refine ⟨hcnt, ?_, rfl⟩
    rw [hwaits]
    simp [List.range_eq_range', freshWorld]

/-- C9, witness: `maxRetries = 2`, `delay = 10`, `backoffFactor = 3` with
no veto gives 3 attempts with waits `[10, 30]`; a predicate vetoing at
attempt 1 stops after 2 attempts with the single wait `[10]`. -/
theorem C9_retry_backoff_witness :
    (countOf (executeStep (tasksC9 (fun n => .num n)) 2 "r" (wfC9 2 10 3 none)
          freshContext freshWorld).2.1 "t" = 2 + 1 ∧
     countOf (executeStep (tasksC9 (fun n => .num n)) 2 "r"
          (wfC9 2 10 3 (some (fun _ i => decide (i < 1))))
          freshContext freshWorld).2.1 "t" = 1 + 1) := by
  have h := C9_retry_backoff (fun n => .num n) 2 10 3 0
  refine ⟨h.1.1, ?_⟩
  exact (h.2 (fun _ i => decide (i < 1)) 1 (by decide)
    (fun i hi => by
      have : i = 0 := by omega
      subst this
      rfl)
    (by decide)).1

end Agentify

namespace Agentify

/-- `executeMapStep` never touches the parent context: per-item runs use
the shallow-copied sub-contexts, which are discarded; only the world and
the outcome flow back. -/
theorem executeMapStep_ctx (exec1 : Exec1) (c : MapStepConfig)
    (ctx : WorkflowContext) (w : World) :
    (executeMapStep exec1 c ctx w).1 = ctx := by
  unfold executeMapStep
  split
  · rfl
  · split <;> rfl

/-- The parent context after a successful Map step: `currentStep` set and
the concatenated result stored under the Map step's id. -/
def mapDoneCtx (ctx : WorkflowContext) (stepId : String) (v : JsValue) : WorkflowContext :=
  { ctx with currentStep := some stepId, steps := setField ctx.steps stepId v }

/-- C10.  A Map step (with no successor) that completes successfully
changes the parent context only by setting `currentStep` and storing the
concatenated result under the Map step's own id: the iterator's per-item
results and errors live in the discarded per-item sub-contexts, so the
parent's `errors` map is unchanged and the iterator's id stays absent from
the parent's `steps` map (when distinct from the Map step's id and absent
beforehand). -/
theorem C10_map_frame (tasks : List (String × RegisteredTask)) (fuel : Nat)
    (stepId : String) (wf : WorkflowDefinition) (ctx : WorkflowContext) (w : World)
    (step : WorkflowStep) (c : MapStepConfig) (v : JsValue)
    (hstep : lookupField wf.steps stepId = some step)
    (hcfg : step.config = .map c)
    (hnext : step.next = none)
    (hok : (executeStep tasks fuel stepId wf ctx w).2.2 = .ok v) :
    (executeStep tasks fuel stepId wf ctx w).1 = mapDoneCtx ctx stepId v ∧
    (executeStep tasks fuel stepId wf ctx w).1.errors = ctx.errors ∧
    (c.iteratorTask ≠ stepId → lookupField ctx.steps c.iteratorTask = none →
      lookupField (executeStep tasks fuel stepId wf ctx w).1.steps c.iteratorTask
        = none) := by
  cases fuel with
  | zero => simp [executeStep] at hok
  | succ f =>
    have hfold : executeStep tasks (f + 1) stepId wf ctx w
        = executeStepF tasks (executeStep tasks f) stepId wf ctx w := rfl
    rw [hfold] at hok ⊢
    rcases hm : executeMapStep (fun sid cc ww => executeStep tasks f sid wf cc ww) c
        { ctx with currentStep := some stepId } w with ⟨cD, wD, ocD⟩
    have hcD : cD = { ctx with currentStep := some stepId } := by
      have h0 := executeMapStep_ctx
        (fun sid cc ww => executeStep tasks f sid wf cc ww) c
        { ctx with currentStep := some stepId } w
      rw [hm] at h0
      exact h0
    subst hcD
    cases ocD with
    | ok r =>
      simp only [executeStepF, hstep, hcfg, hm, hnext, followNext] at hok ⊢
      cases hok
      refine ⟨?_, ?_, ?_⟩
      · trivial
      · trivial
      · intro hne hnone
        rw [lookupField_setField_ne _ _ _ _ hne]
        exact hnone
    | err e =>
      simp only [executeStepF, hstep, hcfg, hm, hnext, followNext] at hok
      exact (Outcome.noConfusion hok)
    | fuelOut =>
      simp only [executeStepF, hstep, hcfg, hm, hnext, followNext] at hok
      exact (Outcome.noConfusion hok)

/-- The Map-step workflow of the C10 witness: map step `m` over the
literal items `[1, 2]` with iterator step `it` running the echo task. -/
def wfC10 : WorkflowDefinition :=
  { id := "w10", name := "w10",
    steps := [("m", { id := "m",
                      config := .map { items := .inr [.num 1, .num 2],
                                       iteratorTask := "it" } }),
              ("it", { id := "it", config := .task { taskName := "echoT" } })],
    entrypoint := "m" }

/-- Parent context of the C10 witness, holding one earlier step result. -/
def ctxC10 : WorkflowContext :=
  { freshContext with steps := [("prev", .num 9)] }

/-- C10, witness: after the concrete Map run, the parent context gains only
`steps.m = [1, 2]`, and the iterator's id `it` is absent from the parent's
step map. -/
theorem C10_map_frame_witness :
    (executeStep [("echoT", formatTask)] 3 "m" wfC10 ctxC10 freshWorld).1
        = mapDoneCtx ctxC10 "m" (.arr [.num 1, .num 2]) ∧
    lookupField (executeStep [("echoT", formatTask)] 3 "m" wfC10 ctxC10
        freshWorld).1.steps "it" = none := by
  have h := C10_map_frame [("echoT", formatTask)] 3 "m" wfC10 ctxC10 freshWorld
    { id := "m", config := .map { items := .inr [.num 1, .num 2],
                                  iteratorTask := "it" } }
    { items := .inr [.num 1, .num 2], iteratorTask := "it" }
    (.arr [.num 1, .num 2]) rfl rfl rfl rfl
  exact ⟨h.1, h.2.2 (by decide) rfl⟩

end Agentify

namespace Agentify

/-- A message of the form `Starting task: {name}` contains the text
`Starting task`. -/
theorem jsIncludes_startingTask (name : String) :
    jsIncludes ("Starting task: " ++ name) "Starting task" = true := rfl

/-- The log list of the named orchestrator context, when present. -/
def logsAt (st : OrchState) (tid : String) : Option (List OrchLogEntry) :=
  (lookupField st.contexts tid).map (fun c => c.logs)

theorem addAgent_evalChecks (st : OrchState) (tid a b : String) :
    (addAgent st tid a b).evalChecks = st.evalChecks := by
  unfold addAgent
  cases lookupField st.contexts tid <;> rfl

theorem addIntermediate_evalChecks (st : OrchState) (tid a : String) (v : JsValue) :
    (addIntermediate st tid a v).evalChecks = st.evalChecks := by
  unfold addIntermediate
  cases lookupField st.contexts tid <;> rfl

theorem logToContext_evalChecks (st : OrchState) (tid lv msg : String) :
    (logToContext st tid lv msg).evalChecks = st.evalChecks := by
  unfold logToContext
  cases lookupField st.contexts tid <;> rfl

theorem setSubtasks_evalChecks (st : OrchState) (tid : String) (names : List String) :
    (setSubtasks st tid names).evalChecks = st.evalChecks := by
  unfold setSubtasks
  cases lookupField st.contexts tid <;> rfl

theorem setStatus_evalChecks (st : OrchState) (tid status : String) :
    (setStatus st tid status).evalChecks = st.evalChecks := by
  unfold setStatus
  cases lookupField st.contexts tid <;> rfl

theorem orchCatch_evalChecks (st : OrchState) (tid e : String) :
    (orchCatch st tid e).1.evalChecks = st.evalChecks := by
  unfold orchCatch
  rw [setStatus_evalChecks, logToContext_evalChecks]

theorem beginTask_evalChecks (td : TaskDefinition) (input : JsValue) (st : OrchState) :
    (beginTask td input st).2.1.evalChecks = st.evalChecks := by
  unfold beginTask
  rw [setSubtasks_evalChecks, logToContext_evalChecks]
  rfl

theorem logsAt_addAgent (st : OrchState) (tid a b tid' : String) :
    logsAt (addAgent st tid a b) tid' = logsAt st tid' := by
  unfold addAgent logsAt
  cases hl : lookupField st.contexts tid with
  | none => rfl
  | some c =>
    by_cases h : tid' = tid
    · subst h
      rw [lookupField_setField_self, hl]
      rfl
    · rw [lookupField_setField_ne _ _ _ _ h]

theorem logsAt_addIntermediate (st : OrchState) (tid a : String) (v : JsValue)
    (tid' : String) :
    logsAt (addIntermediate st tid a v) tid' = logsAt st tid' := by
  unfold addIntermediate logsAt
  cases hl : lookupField st.contexts tid with
  | none => rfl
  | some c =>
    by_cases h : tid' = tid
    · subst h
      rw [lookupField_setField_self, hl]
      rfl
    · rw [lookupField_setField_ne _ _ _ _ h]

/-- The subtask dispatch loop never touches the instrumentation trace. -/
theorem runSubtasks_evalChecks (agents : List Agent) (tid : String) :
    ∀ (l : List TaskDefinition) (acc : JsValue) (res : List JsValue) (st : OrchState),
      (runSubtasks agents tid l acc res st).1.evalChecks = st.evalChecks := by
  intro l
  induction l with
  | nil => intro acc res st; rfl
  | cons sub rest ih =>
    intro acc res st
    simp only [runSubtasks]
    split
    · rfl
    · split
      · exact addAgent_evalChecks _ _ _ _
      · rw [ih, addIntermediate_evalChecks, addAgent_evalChecks]

/-- The subtask dispatch loop never touches any context's log list. -/
theorem runSubtasks_logsAt (agents : List Agent) (tid : String) :
    ∀ (l : List TaskDefinition) (acc : JsValue) (res : List JsValue) (st : OrchState)
      (tid' : String),
      logsAt (runSubtasks agents tid l acc res st).1 tid' = logsAt st tid' := by
  intro l
  induction l with
  | nil => intro acc res st tid'; rfl
  | cons sub rest ih =>
    intro acc res st tid'
    simp only [runSubtasks]
    split
    · rfl
    · split
      · exact logsAt_addAgent _ _ _ _ _
      · rw [ih, logsAt_addIntermediate, logsAt_addAgent]

/-- Right after `beginTask`, the fresh context's log holds exactly the one
`Starting task: {name}` entry. -/
theorem beginTask_logsAt (td : TaskDefinition) (input : JsValue) (st : OrchState) :
    logsAt (beginTask td input st).2.1 (beginTask td input st).1
      = some [{ level := "info", message := "Starting task: " ++ td.name }] := by
  unfold beginTask setSubtasks logToContext createContext logsAt
  simp only [lookupField_setField_self, Option.map_some]
  rfl

/-- The attempts scan of `handleEvaluation` over a context whose log holds
exactly the starting entry yields 1. -/
theorem attemptsScan_one (st : OrchState) (tid name : String)
    (h : logsAt st tid = some [{ level := "info", message := "Starting task: " ++ name }]) :
    attemptsScan st tid = 1 := by
  unfold attemptsScan
  unfold logsAt at h
  cases hl : lookupField st.contexts tid with
  | none => rw [hl] at h; simp at h
  | some c =>
    rw [hl] at h
    simp only [Option.map] at h
    rw [Option.some.injEq] at h
    show (List.filter (fun l => jsIncludes l.message "Starting task") c.logs).length = 1
    rw [h]
    simp [List.filter, jsIncludes_startingTask]

end Agentify

namespace Agentify

/-- Every `EvalCheck` record produced anywhere in an `executeTask`
recursion tree (beyond those already in the starting state) has an
attempts count of exactly 1 and an exhausted flag of false: each recursion
level creates a brand-new context whose log holds exactly one
`Starting task` entry, and the effective maximum is always at least 1. -/
theorem executeTask_evalChecks_aux (opts : OrchestratorOptions) (agents : List Agent)
    (scoreOf : String → ℚ) :
    ∀ (fuel : Nat) (td : TaskDefinition) (input : JsValue) (st : OrchState)
      (r : EvalCheck),
      r ∈ (executeTask opts agents scoreOf fuel td input st).1.evalChecks →
      r ∈ st.evalChecks ∨ (r.attempts = 1 ∧ r.exhausted = false) := by
  intro fuel
  induction fuel with
  | zero =>
    intro td input st r hr
    exact Or.inl hr
  | succ fuel ih =>
    intro td input st r hr
    rcases hb : beginTask td input st with ⟨taskId, st3, subtasks⟩
    have hst3checks : st3.evalChecks = st.evalChecks := by
      have h0 := beginTask_evalChecks td input st
      rw [hb] at h0
      exact h0
    have hst3logs : logsAt st3 taskId
        = some [{ level := "info", message := "Starting task: " ++ td.name }] := by
      have h0 := beginTask_logsAt td input st
      rw [hb] at h0
      exact h0
    rcases hrun : runSubtasks agents taskId subtasks (objectAssign (.obj []) input)
        [] st3 with ⟨st4, res⟩
    have hst4checks : st4.evalChecks = st.evalChecks := by
      have h0 := runSubtasks_evalChecks agents taskId subtasks
        (objectAssign (.obj []) input) [] st3
      rw [hrun] at h0
      rw [h0, hst3checks]
    have hscan : attemptsScan st4 taskId = 1 := by
      apply attemptsScan_one st4 taskId td.name
      have h0 := runSubtasks_logsAt agents taskId subtasks
        (objectAssign (.obj []) input) [] st3 taskId
      rw [hrun] at h0
      rw [h0, hst3logs]
    cases res with
    | error e =>
      simp only [executeTask, hb, hrun] at hr
      rw [orchCatch_evalChecks, hst4checks] at hr
      exact Or.inl hr
    | ok pr =>
      obtain ⟨accF, subtaskResults⟩ := pr
      simp only [executeTask, hb, hrun] at hr
      by_cases hpass :
          (evaluateResult opts scoreOf td (aggregateResults subtaskResults)).passed = true
      · have hEvalEq : handleEvaluation opts (executeTask opts agents scoreOf fuel td)
            taskId td (aggregateResults subtaskResults)
            (evaluateResult opts scoreOf td (aggregateResults subtaskResults)) input st4
            = (st4, .ok (aggregateResults subtaskResults)) := by
          unfold handleEvaluation
          rw [if_pos hpass]
        simp only [hEvalEq] at hr
        rw [setStatus_evalChecks, hst4checks] at hr
        exact Or.inl hr
      · have hge : 1 ≤ (match td.maxAttempts with
            | some m => if m = 0 then (if opts.maxRetries = 0 then 2 else opts.maxRetries) else m
            | none => (if opts.maxRetries = 0 then 2 else opts.maxRetries)) := by
          rcases td.maxAttempts with _ | m
          · dsimp only
            split <;> omega
          · dsimp only
            split
            · split <;> omega
            · omega
        have hnot : ¬ ((1 : Nat) > (match td.maxAttempts with
            | some m => if m = 0 then (if opts.maxRetries = 0 then 2 else opts.maxRetries) else m
            | none => (if opts.maxRetries = 0 then 2 else opts.maxRetries))) := by
          omega
        have hEvalEq : handleEvaluation opts (executeTask opts agents scoreOf fuel td)
            taskId td (aggregateResults subtaskResults)
            (evaluateResult opts scoreOf td (aggregateResults subtaskResults)) input st4
            = executeTask opts agents scoreOf fuel td
                (setKey (objectAssign (.obj []) input) "_previousAttempt"
                  (.obj [("result", aggregateResults subtaskResults),
                         ("evaluation", .evalRes
                           (evaluateResult opts scoreOf td (aggregateResults subtaskResults))),
                         ("feedback", .str "Please improve on the previous attempt")]))
                { st4 with evalChecks := st4.evalChecks ++
                  [{ attempts := 1,
                     maxAllowed := (match td.maxAttempts with
                       | some m => if m = 0 then (if opts.maxRetries = 0 then 2 else opts.maxRetries) else m
                       | none => (if opts.maxRetries = 0 then 2 else opts.maxRetries)),
                     exhausted := false }] } := by
          unfold handleEvaluation
          rw [if_neg hpass]
          simp only [hscan, ite_self, Nat.one_ne_zero, if_false, ite_false,
            decide_eq_false hnot, if_neg hnot]
        rcases hrec : executeTask opts agents scoreOf fuel td
            (setKey (objectAssign (.obj []) input) "_previousAttempt"
              (.obj [("result", aggregateResults subtaskResults),
                     ("evaluation", .evalRes
                       (evaluateResult opts scoreOf td (aggregateResults subtaskResults))),
                     ("feedback", .str "Please improve on the previous attempt")]))
            { st4 with evalChecks := st4.evalChecks ++
              [{ attempts := 1,
                 maxAllowed := (match td.maxAttempts with
                   | some m => if m = 0 then (if opts.maxRetries = 0 then 2 else opts.maxRetries) else m
                   | none => (if opts.maxRetries = 0 then 2 else opts.maxRetries)),
                 exhausted := false }] } with ⟨st6, out⟩
        have hmem : r ∈ st6.evalChecks := by
          cases out with
          | ok v =>
            simp only [hEvalEq, hrec] at hr
            rw [setStatus_evalChecks] at hr
            exact hr
          | error e =>
            simp only [hEvalEq, hrec] at hr
            rw [orchCatch_evalChecks] at hr
            exact hr
        have hih := ih td
          (setKey (objectAssign (.obj []) input) "_previousAttempt"
            (.obj [("result", aggregateResults subtaskResults),
                   ("evaluation", .evalRes
                     (evaluateResult opts scoreOf td (aggregateResults subtaskResults))),
                   ("feedback", .str "Please improve on the previous attempt")]))
          { st4 with evalChecks := st4.evalChecks ++
            [{ attempts := 1,
               maxAllowed := (match td.maxAttempts with
                 | some m => if m = 0 then (if opts.maxRetries = 0 then 2 else opts.maxRetries) else m
                 | none => (if opts.maxRetries = 0 then 2 else opts.maxRetries)),
               exhausted := false }] } r (by rw [hrec]; exact hmem)
        rcases hih with hih | hih
        · simp only [List.mem_append] at hih
          rcases hih with hih | hih
          · rw [hst4checks] at hih
            exact Or.inl hih
          · simp only [List.mem_singleton] at hih
            subst hih
            exact Or.inr ⟨rfl, rfl⟩
        · exact Or.inr hih

end Agentify

namespace Agentify

/-- C2.  For every top-level `executeTask` run whose evaluation fails, the
attempt count that `handleEvaluation` scans from the current context's
`Starting task` log entries is always 1 (each retry recursion creates a
brand-new context holding exactly one such entry), and therefore the
exhausted-attempts branch is taken only if `maxAttempts ≤ 1` (in fact the
proof shows the branch is never taken at all: the `||`-fallbacks force the
effective maximum to at least 1, so `1 > max` never holds). -/
theorem C2_attempt_count (opts : OrchestratorOptions) (agents : List Agent)
    (scoreOf : String → ℚ) (fuel : Nat) (td : TaskDefinition) (input : JsValue)
    (st : OrchState) (r : EvalCheck)
    (h0 : st.evalChecks = [])
    (hr : r ∈ (executeTask opts agents scoreOf fuel td input st).1.evalChecks) :
    r.attempts = 1 ∧ (r.exhausted = true → td.maxAttempts.getD 0 ≤ 1) := by
  rcases executeTask_evalChecks_aux opts agents scoreOf fuel td input st r hr with h | h
  · rw [h0] at h
    exact absurd h (List.not_mem_nil r)
  · refine ⟨h.1, fun hx => ?_⟩
    rw [h.2] at hx
    exact Bool.noConfusion hx

/-- Task of the C2 witness: one evaluation criterion and no explicit
`maxAttempts`. -/
def tdC2 : TaskDefinition :=
  { name := "t", goal := "g",
    evaluationCriteria := some [("quality", { description := "good" })] }

/-- C2, witness: a concrete three-level retry recursion (one criterion, a
score oracle of 0, so every evaluation fails) produces attempt-count
observations, and the theorem applies to the first of them. -/
theorem C2_attempt_count_witness :
    (⟨1, 2, false⟩ : EvalCheck).attempts = 1 ∧
      ((⟨1, 2, false⟩ : EvalCheck).exhausted = true → tdC2.maxAttempts.getD 0 ≤ 1) :=
  C2_attempt_count {} [⟨"a1", some ["general"], fun _ _ => .ok (.obj [("x", .num 1)])⟩]
    (fun _ => 0) 3 tdC2 (.obj []) ⟨[], 0, []⟩ ⟨1, 2, false⟩ rfl
    (by with_unfolding_all decide)

end Agentify
